import Mathlib

/-!
Shallow embedding of the `svo-rs` sparse voxel octree library.

The Rust sources embedded here are:
  `src/compound_node.rs`, `src/consts.rs`, `src/cohen_sutherland.rs`,
  `src/sparse_voxel_octree_node.rs`, `src/sparse_voxel_octree_link.rs`,
  `src/sparse_voxel_octree_builder.rs`, `src/sparse_voxel_octree.rs`,
  `src/voxelized_mesh.rs`.

Machine integers (`u32`, `i32`, `u64`, `u8`) are modelled as `Nat`/`Int`;
every arithmetic operation performed by the library on the inputs appearing
in the claims stays far from the wrap-around boundaries, and the places
where Rust would panic (asserts, `unwrap`, out-of-bounds indexing, fuel for
the builder's loops) are modelled by `Option`: `none` stands for a build or
query on which the Rust program does not return normally.  `f32` world
coordinates are modelled as exact fractions (`F32` below); all
claim-relevant computations (`p / voxel_size` with `voxel_size = 1.0`,
floor, ceil, truncation) are exact in `f32` on the inputs involved.

The Morton codec (`morton_code.rs`) is declared in `lib.rs` but the file is
absent from the sources, so it is modelled from the spec (§4.1) where noted.
-/

namespace Svo

/-- `bevy_math::UVec3`, a vector of three unsigned integers. -/
structure UVec3 where
  x : Nat
  y : Nat
  z : Nat
deriving DecidableEq, Repr

/-- `bevy_math::IVec3`, a vector of three signed integers. -/
structure IVec3 where
  x : Int
  y : Int
  z : Int
deriving DecidableEq, Repr

/-- Exact model of an `f32` world-coordinate scalar: an unreduced fraction
of integers.  All scalar computations the claims exercise are exact in
`f32`, and this representation evaluates inside the kernel.  Numeric
equality of two fractions is `F32.eqv`. -/
structure F32 where
  num : Int
  den : Int
deriving DecidableEq, Repr

/-- Embed an integer. -/
def F32.ofInt (n : Int) : F32 := ⟨n, 1⟩

instance : Add F32 := ⟨fun a b => ⟨a.num * b.den + b.num * a.den, a.den * b.den⟩⟩

instance : Mul F32 := ⟨fun a b => ⟨a.num * b.num, a.den * b.den⟩⟩

instance : Div F32 := ⟨fun a b => ⟨a.num * b.den, a.den * b.num⟩⟩

/-- `f32::floor` (as an integer; the fraction's value is `num / den`). -/
def F32.floorI (q : F32) : Int := Int.fdiv q.num q.den

/-- `f32::ceil` (as an integer). -/
def F32.ceilI (q : F32) : Int := -(Int.fdiv (-q.num) q.den)

/-- Truncation toward zero: the semantics of Rust's `as i32` cast. -/
def F32.truncI (q : F32) : Int := Int.tdiv q.num q.den

/-- Numeric equality of two fractions (what `f32` equality observes). -/
def F32.eqv (a b : F32) : Prop := a.num * b.den = b.num * a.den

instance (a b : F32) : Decidable (F32.eqv a b) := by
  unfold F32.eqv; infer_instance

/-- `bevy_math::Vec3`; `f32` is modelled by `F32` (exact on the claim inputs). -/
structure Vec3 where
  x : F32
  y : F32
  z : F32
deriving DecidableEq, Repr

/-- A `Vec3` with integer components. -/
def Vec3.ofInts (x y z : Int) : Vec3 := ⟨F32.ofInt x, F32.ofInt y, F32.ofInt z⟩

/-- Componentwise numeric equality of `Vec3` values. -/
def Vec3.eqv (a b : Vec3) : Prop := F32.eqv a.x b.x ∧ F32.eqv a.y b.y ∧ F32.eqv a.z b.z

instance (a b : Vec3) : Decidable (Vec3.eqv a b) := by
  unfold Vec3.eqv; infer_instance

instance : Add UVec3 := ⟨fun a b => ⟨a.x + b.x, a.y + b.y, a.z + b.z⟩⟩

/-- Componentwise subtraction; in the embedded code it is only reached when
no component underflows (Rust would panic on underflow in debug builds). -/
instance : Sub UVec3 := ⟨fun a b => ⟨a.x - b.x, a.y - b.y, a.z - b.z⟩⟩

instance : HAdd UVec3 Nat UVec3 := ⟨fun a n => ⟨a.x + n, a.y + n, a.z + n⟩⟩

instance : HDiv UVec3 Nat UVec3 := ⟨fun a n => ⟨a.x / n, a.y / n, a.z / n⟩⟩

instance : HMul UVec3 Nat UVec3 := ⟨fun a n => ⟨a.x * n, a.y * n, a.z * n⟩⟩

/-- `v >> k` componentwise. -/
def UVec3.shr (a : UVec3) (k : Nat) : UVec3 :=
  ⟨a.x >>> k, a.y >>> k, a.z >>> k⟩

/-- `v << k` componentwise. -/
def UVec3.shl (a : UVec3) (k : Nat) : UVec3 :=
  ⟨a.x <<< k, a.y <<< k, a.z <<< k⟩

def UVec3.zero : UVec3 := ⟨0, 0, 0⟩

instance : Add IVec3 := ⟨fun a b => ⟨a.x + b.x, a.y + b.y, a.z + b.z⟩⟩

instance : Sub IVec3 := ⟨fun a b => ⟨a.x - b.x, a.y - b.y, a.z - b.z⟩⟩

/-- `IVec3::min`, componentwise. -/
def IVec3.cmin (a b : IVec3) : IVec3 := ⟨min a.x b.x, min a.y b.y, min a.z b.z⟩

/-- `IVec3::max`, componentwise. -/
def IVec3.cmax (a b : IVec3) : IVec3 := ⟨max a.x b.x, max a.y b.y, max a.z b.z⟩

/-- `IVec3::max_element`. -/
def IVec3.maxElement (a : IVec3) : Int := max a.x (max a.y a.z)

def IVec3.zero : IVec3 := ⟨0, 0, 0⟩

/-- `IVec3::MAX` (`i32::MAX` per component). -/
def IVec3.MAXC : IVec3 := ⟨2147483647, 2147483647, 2147483647⟩

/-- `IVec3::MIN` (`i32::MIN` per component). -/
def IVec3.MINC : IVec3 := ⟨-2147483648, -2147483648, -2147483648⟩

/-- `IVec3::as_uvec3`; the embedded code only reaches it on non-negative
vectors, where the Rust `as u32` cast agrees with `Int.toNat`. -/
def IVec3.asUVec3 (a : IVec3) : UVec3 := ⟨a.x.toNat, a.y.toNat, a.z.toNat⟩

/-- `UVec3::as_ivec3`. -/
def UVec3.asIVec3 (a : UVec3) : IVec3 := ⟨a.x, a.y, a.z⟩

/-- `Vec3::as_ivec3` (`as i32` casts, truncation toward zero). -/
def Vec3.asIVec3 (v : Vec3) : IVec3 := ⟨v.x.truncI, v.y.truncI, v.z.truncI⟩

instance : HDiv Vec3 F32 Vec3 := ⟨fun v q => ⟨v.x / q, v.y / q, v.z / q⟩⟩

instance : Add Vec3 := ⟨fun a b => ⟨a.x + b.x, a.y + b.y, a.z + b.z⟩⟩

/-- `Vec3::floor` composed with `as_ivec3` (floor yields integer values). -/
def Vec3.floorIVec3 (v : Vec3) : IVec3 := ⟨v.x.floorI, v.y.floorI, v.z.floorI⟩

/-- `Vec3::ceil` composed with `as_ivec3` (ceil yields integer values). -/
def Vec3.ceilIVec3 (v : Vec3) : IVec3 := ⟨v.x.ceilI, v.y.ceilI, v.z.ceilI⟩

/-- One interleaving round per bit position; 32 rounds cover the full
width of the `u32` coordinates. -/
def mortonEncodeAux : Nat → Nat → Nat → Nat → Nat
  | 0, _, _, _ => 0
  | f + 1, x, y, z =>
    x % 2 + 2 * (y % 2) + 4 * (z % 2) + 8 * mortonEncodeAux f (x / 2) (y / 2) (z / 2)

/-- Modelled from the spec: `MortonCode::encode` (`morton_code.rs` is missing
from the sources).  §4.1: interleave the bits of three unsigned coordinates,
x contributing bit 0, y bit 1, z bit 2, repeating for higher bits. -/
def mortonEncode (x y z : Nat) : Nat := mortonEncodeAux 32 x y z

/-- `MortonCode::encode` applied to a `UVec3` (used as the sort key). -/
def mortonEncodeV (v : UVec3) : Nat := mortonEncode v.x v.y v.z

/-- Modelled from the spec: the narrowed 8-bit view of a Morton code
(`MortonCode::as_u8`), which fails when a coordinate exceeds the range
{0..3}, i.e. exactly when the code is 64 or more (§4.1, §7). -/
def mortonAsU8 (c : Nat) : Option Nat := if c < 64 then some c else none

/-- Modelled from the spec: `MortonCode::from_u8(i).decode()`, the inverse of
the 8-bit Morton code; yields the coordinate triple, each in {0..3}, and
fails when a coordinate would exceed that range. -/
def mortonDecodeU8 (i : Nat) : Option UVec3 :=
  let x := i % 2 + 2 * (i / 8 % 2) + 4 * (i / 64 % 2)
  let y := i / 2 % 2 + 2 * (i / 16 % 2) + 4 * (i / 128 % 2)
  let z := i / 4 % 2 + 2 * (i / 32 % 2)
  if x < 4 ∧ y < 4 ∧ z < 4 then some ⟨x, y, z⟩ else none

/-- `compound_node.rs`: a 4×4×4 leaf cube packed into a 64-bit word,
modelled as the `Nat` value of that word. -/
abbrev CompoundNode : Type := Nat

namespace CompoundNode

/-- `CompoundNode::TOP_FACE_POSITIONS`. -/
def TOP_FACE_POSITIONS : Nat := 0x333300003333

/-- `CompoundNode::BOTTOM_FACE_POSITIONS`. -/
def BOTTOM_FACE_POSITIONS : Nat := 0xcccc0000cccc0000

/-- `CompoundNode::LEFT_FACE_POSITIONS`. -/
def LEFT_FACE_POSITIONS : Nat := 0x55005500550055

/-- `CompoundNode::RIGHT_FACE_POSITIONS`. -/
def RIGHT_FACE_POSITIONS : Nat := 0xaa00aa00aa00aa00

/-- `CompoundNode::FRONT_FACE_POSITIONS`. -/
def FRONT_FACE_POSITIONS : Nat := 0xf0f0f0f

/-- `CompoundNode::BACK_FACE_POSITIONS`. -/
def BACK_FACE_POSITIONS : Nat := 0xf0f0f0f000000000

/-- `CompoundNode::FACE_POSITIONS`. -/
def FACE_POSITIONS : List Nat :=
  [RIGHT_FACE_POSITIONS, BACK_FACE_POSITIONS, LEFT_FACE_POSITIONS,
   FRONT_FACE_POSITIONS, BOTTOM_FACE_POSITIONS, TOP_FACE_POSITIONS]

/-- `CompoundNode::new`. -/
def new : CompoundNode := 0

/-- `CompoundNode::is_face`. -/
def isFace (node_index : Nat) (face_index : Nat) : Bool :=
  (FACE_POSITIONS.getD face_index 0) &&& (1 <<< node_index) != 0

/-- `CompoundNode::is_empty`. -/
def isEmpty (c : CompoundNode) : Bool := c == 0

/-- `CompoundNode::is_full` (`u64::MAX`). -/
def isFull (c : CompoundNode) : Bool := c == 0xffffffffffffffff

/-- `CompoundNode::set` (only ever called with `value = true` and with
coordinates below 4 in the builder). -/
def set (c : CompoundNode) (x y z : Nat) (value : Bool) : CompoundNode :=
  let index := mortonEncode x y z
  if value then c ||| (1 <<< index) else c &&& (0xffffffffffffffff ^^^ (1 <<< index))

/-- `CompoundNode::get`. -/
def get (c : CompoundNode) (x y z : Nat) : Bool :=
  c &&& (1 <<< mortonEncode x y z) != 0

/-- `CompoundNode::get_by_index`. -/
def getByIndex (c : CompoundNode) (index : Nat) : Bool :=
  c &&& (1 <<< index) != 0

/-- `CompoundNode::get_occupied_indexes`. -/
def getOccupiedIndexes (c : CompoundNode) : List Nat :=
  (List.range 64).filter (fun i => c &&& (1 <<< i) != 0)

end CompoundNode

/-- `cohen_sutherland.rs::LineClippingResult`. -/
inductive LineClippingResult where
  | Inside : LineClippingResult
  | Outside : LineClippingResult
  | Clip : LineClippingResult
deriving DecidableEq, Repr

/-- `cohen_sutherland.rs`: region-code bit constants. -/
def CS_LEFT : Nat := 0x01

def CS_RIGHT : Nat := 0x02

def CS_BOTTOM : Nat := 0x04

def CS_TOP : Nat := 0x08

def CS_NEAR : Nat := 0x10

def CS_FAR : Nat := 0x20

/-- `cohen_sutherland.rs::assign_region_code`, instantiated (as in
`is_in_line_of_sight`) at unsigned integer coordinate triples. -/
def assignRegionCode (p mn mx : UVec3) : Nat :=
  let c1 := if p.x < mn.x then CS_LEFT else if p.x > mx.x then CS_RIGHT else 0
  let c2 := if p.y < mn.y then CS_BOTTOM else if p.y > mx.y then CS_TOP else 0
  let c3 := if p.z < mn.z then CS_NEAR else if p.z > mx.z then CS_FAR else 0
  c1 ||| c2 ||| c3

/-- `cohen_sutherland.rs::cohen_sutherland`. -/
def cohenSutherland (l1 l2 mn mx : UVec3) : LineClippingResult :=
  let code1 := assignRegionCode l1 mn mx
  let code2 := assignRegionCode l2 mn mx
  if code1 = 0 ∧ code2 = 0 then LineClippingResult.Inside
  else if code1 &&& code2 ≠ 0 then LineClippingResult.Outside
  else LineClippingResult.Clip

/-- Table of position offsets for Morton codes 0..7 (consts.rs). -/
def OFFSETS_IN_MORTON_CODE_ORDER : List (Nat × Nat × Nat) :=
  [(0, 0, 0), (1, 0, 0), (0, 1, 0), (1, 1, 0), (0, 0, 1), (1, 0, 1), (0, 1, 1), (1, 1, 1)]

/-- Neighbor connections between two split nodes, per face (consts.rs). -/
def NEIGHBOR_CONNECTIONS : List (List Nat × List Nat) :=
  [([1, 5, 3, 7], [0, 4, 2, 6]),
   ([4, 6, 5, 7], [0, 2, 1, 3]),
   ([0, 4, 2, 6], [1, 5, 3, 7]),
   ([0, 2, 1, 3], [4, 6, 5, 7]),
   ([2, 6, 3, 7], [0, 4, 1, 5]),
   ([0, 4, 1, 5], [2, 6, 3, 7])]

/-- The 12 connections between the 8 subnodes of a node (consts.rs). -/
def SIBLING_CONNECTIONS : List (Nat × Nat × Nat × Nat) :=
  [(0, 2, 0, 1),
   (4, 5, 0, 2),
   (1, 3, 0, 4),
   (4, 5, 1, 3),
   (1, 3, 1, 5),
   (0, 2, 2, 3),
   (1, 3, 2, 6),
   (1, 3, 3, 7),
   (0, 2, 4, 5),
   (4, 5, 4, 6),
   (4, 5, 5, 7),
   (0, 2, 6, 7)]

/-- The 6 neighbors of each of the 64 subnodes, Morton order (consts.rs). -/
def SUBNODE_NEIGHBORS : List (List Nat) :=
  [[1, 4, 9, 36, 2, 18],
   [8, 5, 0, 37, 3, 19],
   [3, 6, 11, 38, 16, 0],
   [10, 7, 2, 39, 17, 1],
   [5, 32, 13, 0, 6, 22],
   [12, 33, 4, 1, 7, 23],
   [7, 34, 15, 2, 20, 4],
   [14, 35, 6, 3, 21, 5],
   [9, 12, 1, 44, 10, 26],
   [0, 13, 8, 45, 11, 27],
   [11, 14, 3, 46, 24, 8],
   [2, 15, 10, 47, 25, 9],
   [13, 40, 5, 8, 14, 30],
   [4, 41, 12, 9, 15, 31],
   [15, 42, 7, 10, 28, 12],
   [6, 43, 14, 11, 29, 13],
   [17, 20, 25, 52, 18, 2],
   [24, 21, 16, 53, 19, 3],
   [19, 22, 27, 54, 0, 16],
   [26, 23, 18, 55, 1, 17],
   [21, 48, 29, 16, 22, 6],
   [28, 49, 20, 17, 23, 7],
   [23, 50, 31, 18, 4, 20],
   [30, 51, 22, 19, 5, 21],
   [25, 28, 17, 60, 26, 10],
   [16, 29, 24, 61, 27, 11],
   [27, 30, 19, 62, 8, 24],
   [18, 31, 26, 63, 9, 25],
   [29, 56, 21, 24, 30, 14],
   [20, 57, 28, 25, 31, 15],
   [31, 58, 23, 26, 12, 28],
   [22, 59, 30, 27, 13, 29],
   [33, 36, 41, 4, 34, 50],
   [40, 37, 32, 5, 35, 51],
   [35, 38, 43, 6, 48, 32],
   [42, 39, 34, 7, 49, 33],
   [37, 0, 45, 32, 38, 54],
   [44, 1, 36, 33, 39, 55],
   [39, 2, 47, 34, 52, 36],
   [46, 3, 38, 35, 53, 37],
   [41, 44, 33, 12, 42, 58],
   [32, 45, 40, 13, 43, 59],
   [43, 46, 35, 14, 56, 40],
   [34, 47, 42, 15, 57, 41],
   [45, 8, 37, 40, 46, 62],
   [36, 9, 44, 41, 47, 63],
   [47, 10, 39, 42, 60, 44],
   [38, 11, 46, 43, 61, 45],
   [49, 52, 57, 20, 50, 34],
   [56, 53, 48, 21, 51, 35],
   [51, 54, 59, 22, 32, 48],
   [58, 55, 50, 23, 33, 49],
   [53, 16, 61, 48, 54, 38],
   [60, 17, 52, 49, 55, 39],
   [55, 18, 63, 50, 36, 52],
   [62, 19, 54, 51, 37, 53],
   [57, 60, 49, 28, 58, 42],
   [48, 61, 56, 29, 59, 43],
   [59, 62, 51, 30, 40, 56],
   [50, 63, 58, 31, 41, 57],
   [61, 24, 53, 56, 62, 46],
   [52, 25, 60, 57, 63, 47],
   [63, 26, 55, 58, 44, 60],
   [54, 27, 62, 59, 45, 61]]

/-- Subnode positions and Morton indexes on each face of a leaf (consts.rs). -/
def NEIGHBOR_SUBNODES : List (List (Nat × Nat × Nat × Nat)) :=
  [[(0, 0, 0, 0),
    (0, 0, 1, 4),
    (0, 0, 2, 32),
    (0, 0, 3, 36),
    (0, 1, 0, 2),
    (0, 1, 1, 6),
    (0, 1, 2, 34),
    (0, 1, 3, 38),
    (0, 2, 0, 16),
    (0, 2, 1, 20),
    (0, 2, 2, 48),
    (0, 2, 3, 52),
    (0, 3, 0, 18),
    (0, 3, 1, 22),
    (0, 3, 2, 50),
    (0, 3, 3, 54)],
   [(0, 0, 0, 0),
    (1, 0, 0, 1),
    (2, 0, 0, 8),
    (3, 0, 0, 9),
    (0, 1, 0, 2),
    (1, 1, 0, 3),
    (2, 1, 0, 10),
    (3, 1, 0, 11),
    (0, 2, 0, 16),
    (1, 2, 0, 17),
    (2, 2, 0, 24),
    (3, 2, 0, 25),
    (0, 3, 0, 18),
    (1, 3, 0, 19),
    (2, 3, 0, 26),
    (3, 3, 0, 27)],
   [(3, 0, 0, 9),
    (3, 0, 1, 13),
    (3, 0, 2, 41),
    (3, 0, 3, 45),
    (3, 1, 0, 11),
    (3, 1, 1, 15),
    (3, 1, 2, 43),
    (3, 1, 3, 47),
    (3, 2, 0, 25),
    (3, 2, 1, 29),
    (3, 2, 2, 57),
    (3, 2, 3, 61),
    (3, 3, 0, 27),
    (3, 3, 1, 31),
    (3, 3, 2, 59),
    (3, 3, 3, 63)],
   [(0, 0, 3, 36),
    (1, 0, 3, 37),
    (2, 0, 3, 44),
    (3, 0, 3, 45),
    (0, 1, 3, 38),
    (1, 1, 3, 39),
    (2, 1, 3, 46),
    (3, 1, 3, 47),
    (0, 2, 3, 52),
    (1, 2, 3, 53),
    (2, 2, 3, 60),
    (3, 2, 3, 61),
    (0, 3, 3, 54),
    (1, 3, 3, 55),
    (2, 3, 3, 62),
    (3, 3, 3, 63)],
   [(0, 0, 0, 0),
    (1, 0, 0, 1),
    (2, 0, 0, 8),
    (3, 0, 0, 9),
    (0, 0, 1, 4),
    (1, 0, 1, 5),
    (2, 0, 1, 12),
    (3, 0, 1, 13),
    (0, 0, 2, 32),
    (1, 0, 2, 33),
    (2, 0, 2, 40),
    (3, 0, 2, 41),
    (0, 0, 3, 36),
    (1, 0, 3, 37),
    (2, 0, 3, 44),
    (3, 0, 3, 45)],
   [(0, 3, 0, 18),
    (1, 3, 0, 19),
    (2, 3, 0, 26),
    (3, 3, 0, 27),
    (0, 3, 1, 22),
    (1, 3, 1, 23),
    (2, 3, 1, 30),
    (3, 3, 1, 31),
    (0, 3, 2, 50),
    (1, 3, 2, 51),
    (2, 3, 2, 58),
    (3, 3, 2, 59),
    (0, 3, 3, 54),
    (1, 3, 3, 55),
    (2, 3, 3, 62),
    (3, 3, 3, 63)]]

/-- Position offsets of the 6 face neighbors of a node (consts.rs). -/
def NEIGHBOR_POSITION_OFFSETS : List (Int × Int × Int) :=
  [(1, 0, 0), (0, 0, 1), (-1, 0, 0), (0, 0, -1), (0, 1, 0), (0, -1, 0)]

/-- Positions of the 64 subnodes of a leaf, Morton order (consts.rs). -/
def SUBNODE_POSITIONS : List (Nat × Nat × Nat) :=
  [(0, 0, 0), (1, 0, 0), (0, 1, 0), (1, 1, 0), (0, 0, 1), (1, 0, 1), (0, 1, 1), (1, 1, 1),
   (2, 0, 0), (3, 0, 0), (2, 1, 0), (3, 1, 0), (2, 0, 1), (3, 0, 1), (2, 1, 1), (3, 1, 1),
   (0, 2, 0), (1, 2, 0), (0, 3, 0), (1, 3, 0), (0, 2, 1), (1, 2, 1), (0, 3, 1), (1, 3, 1),
   (2, 2, 0), (3, 2, 0), (2, 3, 0), (3, 3, 0), (2, 2, 1), (3, 2, 1), (2, 3, 1), (3, 3, 1),
   (0, 0, 2), (1, 0, 2), (0, 1, 2), (1, 1, 2), (0, 0, 3), (1, 0, 3), (0, 1, 3), (1, 1, 3),
   (2, 0, 2), (3, 0, 2), (2, 1, 2), (3, 1, 2), (2, 0, 3), (3, 0, 3), (2, 1, 3), (3, 1, 3),
   (0, 2, 2), (1, 2, 2), (0, 3, 2), (1, 3, 2), (0, 2, 3), (1, 2, 3), (0, 3, 3), (1, 3, 3),
   (2, 2, 2), (3, 2, 2), (2, 3, 2), (3, 3, 2), (2, 2, 3), (3, 2, 3), (2, 3, 3), (3, 3, 3)]

/-- `sparse_voxel_octree_link.rs::SparseVoxelOctreeLink`. -/
structure SparseVoxelOctreeLink where
  layer_index : Nat
  node_index : Nat
  subnode_index : Option Nat
deriving DecidableEq, Repr

/-- `SparseVoxelOctreeLink::new`. -/
def SparseVoxelOctreeLink.new (l n : Nat) (s : Option Nat) : SparseVoxelOctreeLink :=
  ⟨l, n, s⟩

/-- `sparse_voxel_octree_node.rs::SparseVoxelOctreeNode`; the `neighbors`
array of six optional links is modelled as a list of length six. -/
structure SparseVoxelOctreeNode where
  position : UVec3
  size : Nat
  parent : Option SparseVoxelOctreeLink
  first_child : Option SparseVoxelOctreeLink
  is_leaf : Bool
  neighbors : List (Option SparseVoxelOctreeLink)
deriving DecidableEq, Repr

/-- `SparseVoxelOctreeNode::node`. -/
def SparseVoxelOctreeNode.node (position : UVec3) (size : Nat) : SparseVoxelOctreeNode :=
  ⟨position, size, none, none, false, List.replicate 6 none⟩

/-- `SparseVoxelOctreeNode::leaf`; note that it sets `is_leaf: true`. -/
def SparseVoxelOctreeNode.leaf (position : UVec3) : SparseVoxelOctreeNode :=
  ⟨position, 4, none, none, true, List.replicate 6 none⟩

/-- Placeholder node used for out-of-range list reads; the embedded code
only reads indices that are in range on the paths the claims exercise. -/
def defNode : SparseVoxelOctreeNode := SparseVoxelOctreeNode.node UVec3.zero 0

/-- `sparse_voxel_octree.rs::SparseVoxelOctree`. -/
structure SparseVoxelOctree where
  voxel_size : F32
  origin : IVec3
  layers : List (List SparseVoxelOctreeNode)
  leafs : List CompoundNode
deriving DecidableEq, Repr

/-- Read `self.layers[l][n]`. -/
def SparseVoxelOctree.getNode (t : SparseVoxelOctree) (l n : Nat) : SparseVoxelOctreeNode :=
  (t.layers.getD l []).getD n defNode

/-- Read the node a link points at. -/
def SparseVoxelOctree.nodeAt (t : SparseVoxelOctree) (link : SparseVoxelOctreeLink) :
    SparseVoxelOctreeNode :=
  t.getNode link.layer_index link.node_index

/-- In-place update of one element of a list (`Vec` slot assignment). -/
def listModify {α : Type} : List α → Nat → (α → α) → List α
  | [], _, _ => []
  | a :: as, 0, f => f a :: as
  | a :: as, n+1, f => a :: listModify as n f

/-- In-place update of `layers[l][n]`. -/
def layersModify (ls : List (List SparseVoxelOctreeNode)) (l n : Nat)
    (f : SparseVoxelOctreeNode → SparseVoxelOctreeNode) : List (List SparseVoxelOctreeNode) :=
  listModify ls l (fun lay => listModify lay n f)

/-- Set `node.neighbors[i]`. -/
def SparseVoxelOctreeNode.setNeighbor (nd : SparseVoxelOctreeNode) (i : Nat)
    (v : Option SparseVoxelOctreeLink) : SparseVoxelOctreeNode :=
  { nd with neighbors := nd.neighbors.set i v }

/-- `u32::is_power_of_two` (exactly one bit set; `u32` values are below
`2 ^ 32`, so testing exponents up to 32 is exhaustive). -/
def isPowerOfTwo (n : Nat) : Bool :=
  (List.range 33).any (fun k => n == 2 ^ k)

/-- Doubling loop behind `u32::next_power_of_two`. -/
def nextPowerOfTwoAux (n : Nat) : Nat → Nat → Nat
  | 0, acc => acc
  | f+1, acc => if n ≤ acc then acc else nextPowerOfTwoAux n f (2 * acc)

/-- `u32::next_power_of_two`: the least power of two that is `≥ n`
(for `u32` inputs 33 doublings are exhaustive). -/
def nextPowerOfTwo (n : Nat) : Nat := nextPowerOfTwoAux n 33 1

/-- `voxelized_mesh.rs::VoxelizedMesh` (the voxel list, the voxel size and
the `left_top_corner` offset). -/
structure VoxelizedMesh where
  voxels : List UVec3
  voxel_size : F32
  left_top_corner : IVec3
deriving Repr

/-- `VoxelizedMesh::voxels`: each stored voxel plus `left_top_corner`. -/
def VoxelizedMesh.voxelsOut (m : VoxelizedMesh) : List IVec3 :=
  m.voxels.map (fun v => v.asIVec3 + m.left_top_corner)

/-- `VoxelizedMesh::new`. -/
def VoxelizedMesh.new (voxels : List UVec3) (voxel_size : F32) (left_top_corner : IVec3) :
    VoxelizedMesh :=
  ⟨voxels, voxel_size, left_top_corner⟩

/-- Lookup in an association list (model of `HashMap` on `UVec3` keys). -/
def alGet {α : Type} : List (UVec3 × α) → UVec3 → Option α
  | [], _ => none
  | (k₀, v) :: rest, k => if k₀ = k then some v else alGet rest k

/-- `HashMap::entry(k).or_insert_with(f)`: insert only when the key is
absent.  The hash map's iteration order is irrelevant to the program: the
builder sorts both collections by (injective) Morton keys before use, so an
insertion-ordered association list is an exact model. -/
def alInsertIfAbsent {α : Type} (m : List (UVec3 × α)) (k : UVec3) (v : α) :
    List (UVec3 × α) :=
  if (alGet m k).isSome then m else m ++ [(k, v)]

/-- `HashMap::get_mut(k)` followed by a mutation; the builder only calls it
on keys it has inserted (the `expect` in the source cannot fire). -/
def alModify {α : Type} (m : List (UVec3 × α)) (k : UVec3) (f : α → α) :
    List (UVec3 × α) :=
  m.map (fun p => if p.1 = k then (p.1, f p.2) else p)

namespace SparseVoxelOctreeBuilder

/-- `SparseVoxelOctreeBuilder::get_min_max`. -/
def getMinMax (voxels : List IVec3) : IVec3 × IVec3 :=
  match voxels with
  | [] => (IVec3.zero, IVec3.zero)
  | _ => voxels.foldl (fun mm v => (mm.1.cmin v, mm.2.cmax v)) (IVec3.MAXC, IVec3.MINC)

/-- `SparseVoxelOctreeBuilder::get_origin_and_size`; the `as u32` cast of
`max_element` is `Int.toNat` (non-negative whenever `min ≤ max`, which holds
at every call site inside `build`). -/
def getOriginAndSize (mn mx : IVec3) : IVec3 × Nat :=
  if mn = mx then (mn, 1)
  else
    let size := mx - mn
    let size := size.maxElement.toNat
    let size := if !(isPowerOfTwo size) then nextPowerOfTwo size else size
    (mn, size)

/-- First pass of `collect_leafs_and_zero_layer_nodes`: create the 4×4×4
leaf entries (all eight octants under each voxel's size-8 parent). -/
def collectPassOne (voxels : List IVec3) (origin : IVec3) :
    List (UVec3 × CompoundNode) × List (UVec3 × SparseVoxelOctreeNode) :=
  voxels.foldl
    (fun ms voxel =>
      let offset := (voxel - origin).asUVec3
      let leaf_parent_coords := (offset.shr 3).shl 3
      (List.range 2).foldl (fun ms x =>
        (List.range 2).foldl (fun ms y =>
          (List.range 2).foldl (fun ms z =>
            let leaf_coords : UVec3 := ⟨x * 4, y * 4, z * 4⟩
            let leaf_coords : UVec3 := leaf_parent_coords + leaf_coords
            (alInsertIfAbsent ms.1 leaf_coords CompoundNode.new,
             alInsertIfAbsent ms.2 leaf_coords (SparseVoxelOctreeNode.leaf leaf_coords)))
            ms) ms) ms)
    ([], [])

/-- Second pass of `collect_leafs_and_zero_layer_nodes`: set the occupancy
bit of each voxel in its leaf and mark the layer-0 node `is_leaf`. -/
def collectPassTwo (voxels : List IVec3) (origin : IVec3)
    (ms : List (UVec3 × CompoundNode) × List (UVec3 × SparseVoxelOctreeNode)) :
    List (UVec3 × CompoundNode) × List (UVec3 × SparseVoxelOctreeNode) :=
  voxels.foldl
    (fun ms voxel =>
      let offset := (voxel - origin).asUVec3
      let leaf_coords := (offset.shr 2).shl 2
      let local_coords := offset - leaf_coords
      (alModify ms.1 leaf_coords
        (fun c => c.set local_coords.x local_coords.y local_coords.z true),
       alModify ms.2 leaf_coords (fun nd => { nd with is_leaf := true })))
    ms

/-- `SparseVoxelOctreeBuilder::collect_leafs_and_zero_layer_nodes`.  The
stable `sort_by` on (injective) Morton keys is modelled by
`List.insertionSort`, which produces the same list. -/
def collectLeafsAndZeroLayerNodes (voxels : List IVec3) (origin : IVec3) :
    List SparseVoxelOctreeNode × List CompoundNode :=
  let ms := collectPassTwo voxels origin (collectPassOne voxels origin)
  let leafs :=
    ((ms.1.map (fun p => (p.2, mortonEncodeV p.1))).insertionSort
        (fun a b => a.2 ≤ b.2)).map (fun p => p.1)
  let layer_zero :=
    (ms.2.map (fun p => p.2)).insertionSort
      (fun a b => mortonEncodeV a.position ≤ mortonEncodeV b.position)
  (layer_zero, leafs)

/-- `SparseVoxelOctreeBuilder::validate_all_children_present`.  The `u32`
position subtraction is guarded: a component underflow makes the check fail
(in Rust it panics in debug and wraps to a mismatch in release; either way
the surrounding `assert!` stops the build). -/
def validateAllChildrenPresent (nodes : List SparseVoxelOctreeNode) (node_size : Nat) : Bool :=
  if nodes.length % 8 ≠ 0 then false
  else
    (List.range (nodes.length / 8)).all (fun b =>
      let first_position := (nodes.getD (8 * b) defNode).position / node_size
      (List.range 8).all (fun y =>
        let node_pos := (nodes.getD (8 * b + y) defNode).position / node_size
        let off := OFFSETS_IN_MORTON_CODE_ORDER.getD y (0, 0, 0)
        decide (first_position.x ≤ node_pos.x ∧ first_position.y ≤ node_pos.y ∧
          first_position.z ≤ node_pos.z ∧
          node_pos - first_position = UVec3.mk off.1 off.2.1 off.2.2)))

/-- `SparseVoxelOctreeBuilder::fill_node_if_it_doesnt_exist`. -/
def fillNodeIfItDoesntExist (layer : List SparseVoxelOctreeNode) (node_index : Nat)
    (first_position : UVec3) (node_size : Nat) (offset : UVec3) :
    List SparseVoxelOctreeNode :=
  let node_1_exists : Bool :=
    if layer.length > node_index then
      let node_1_pos := (layer.getD node_index defNode).position
      if first_position.x > node_1_pos.x ∨ first_position.y > node_1_pos.y ∨
          first_position.z > node_1_pos.z then
        false
      else
        decide ((node_1_pos - first_position) / node_size = offset)
    else false
  if !node_1_exists then
    List.insertIdx node_index
      (SparseVoxelOctreeNode.node (first_position + offset * node_size) node_size) layer
  else layer

/-- One slot of the octet-filling pass inside the padding loop of
`create_next_layer` (the `for y in 0..8` body). -/
def padFillStep (first_position : UVec3) (next_node_size i : Nat)
    (lay : List SparseVoxelOctreeNode) (y : Nat) : List SparseVoxelOctreeNode :=
  let item := OFFSETS_IN_MORTON_CODE_ORDER.getD y (0, 0, 0)
  fillNodeIfItDoesntExist lay (i + y) first_position next_node_size
    (UVec3.mk item.1 item.2.1 item.2.2)

/-- The in-place padding loop of `create_next_layer` (the `loop { .. }`
block).  Each iteration fills one block of eight; the fuel passed by
`createNextLayer` exceeds the possible number of iterations, since every
iteration consumes at least one node of the unpadded layer. -/
def padLayerLoop (next_node_size : Nat) :
    Nat → Nat → List SparseVoxelOctreeNode → Option (List SparseVoxelOctreeNode)
  | 0, _, _ => none
  | f + 1, i, layer =>
    let first_position :=
      if layer.length ≤ i then UVec3.zero
      else ((layer.getD i defNode).position / (next_node_size * 2)) * (next_node_size * 2)
    let layer := (List.range 8).foldl (padFillStep first_position next_node_size i) layer
    if i + 8 ≥ layer.length then some layer
    else padLayerLoop next_node_size f (i + 8) layer

/-- `SparseVoxelOctreeBuilder::create_next_layer`; `none` models the
`assert!(validate_all_children_present(..), "not all children present")`
panic (and padding fuel exhaustion, which cannot occur). -/
def createNextLayer (layers : List (List SparseVoxelOctreeNode))
    (current_node_size size : Nat) : Option (Nat × List SparseVoxelOctreeNode) :=
  let next_layer_index := layers.length
  let next_node_size := current_node_size * 2
  match layers.getLast? with
  | none => none
  | some last_layer =>
    if !(validateAllChildrenPresent last_layer current_node_size) then none
    else
      let layer := (List.range (last_layer.length / 8)).map (fun b =>
        let i := 8 * b
        let position := (last_layer.getD i defNode).position
        let nd := SparseVoxelOctreeNode.node position next_node_size
        { nd with first_child := some (SparseVoxelOctreeLink.new (next_layer_index - 1) i none) })
      if next_node_size < size then
        (padLayerLoop next_node_size (layer.length + 2) 0 layer).map
          (fun l => (next_node_size, l))
      else some (next_node_size, layer)

/-- `SparseVoxelOctreeBuilder::fill_parents`. -/
def fillParents (layers : List (List SparseVoxelOctreeNode)) :
    List (List SparseVoxelOctreeNode) :=
  (List.range layers.length).reverse.foldl
    (fun ls i =>
      (List.range ((ls.getD i []).length)).foldl
        (fun ls y =>
          match ((ls.getD i []).getD y defNode).first_child with
          | none => ls
          | some first_child =>
            (List.range 8).foldl
              (fun ls z =>
                layersModify ls first_child.layer_index (first_child.node_index + z)
                  (fun nd => { nd with parent := some (SparseVoxelOctreeLink.new i y none) }))
              ls)
        ls)
    layers

/-- The two reciprocal sibling writes of one `SIBLING_CONNECTIONS` entry in
`fill_neighbors`. -/
def siblingWrites (first_child : SparseVoxelOctreeLink)
    (ls : List (List SparseVoxelOctreeNode)) (conn : Nat × Nat × Nat × Nat) :
    List (List SparseVoxelOctreeNode) :=
  let ls3 := layersModify ls first_child.layer_index (first_child.node_index + conn.2.2.1)
    (fun nd => nd.setNeighbor conn.1
      (some (SparseVoxelOctreeLink.new first_child.layer_index
        (first_child.node_index + conn.2.2.2) none)))
  layersModify ls3 first_child.layer_index (first_child.node_index + conn.2.2.2)
    (fun nd => nd.setNeighbor conn.2.1
      (some (SparseVoxelOctreeLink.new first_child.layer_index
        (first_child.node_index + conn.2.2.1) none)))

/-- The cross-face writes of `fill_neighbors` for one face of the popped
node (`interconnect children with own neighbors`). -/
def crossWrites (node : SparseVoxelOctreeLink) (ls : List (List SparseVoxelOctreeNode))
    (from_neighbor_index : Nat) : List (List SparseVoxelOctreeNode) :=
  let conns := NEIGHBOR_CONNECTIONS.getD from_neighbor_index ([], [])
  match ((ls.getD node.layer_index []).getD node.node_index
      defNode).neighbors.getD from_neighbor_index none with
  | none => ls
  | some neighbor =>
    match ((ls.getD node.layer_index []).getD node.node_index defNode).first_child with
    | none => ls
    | some own_first_child =>
      match ((ls.getD neighbor.layer_index []).getD neighbor.node_index
          defNode).first_child with
      | some neighbor_first_child =>
        (List.range 4).foldl
          (fun ls i =>
            layersModify ls own_first_child.layer_index
              (own_first_child.node_index + conns.1.getD i 0)
              (fun nd => nd.setNeighbor from_neighbor_index
                (some (SparseVoxelOctreeLink.new neighbor_first_child.layer_index
                  (neighbor_first_child.node_index + conns.2.getD i 0) none))))
          ls
      | none =>
        (conns.1.take 4).foldl
          (fun ls nodeoff =>
            layersModify ls own_first_child.layer_index
              (own_first_child.node_index + nodeoff)
              (fun nd => nd.setNeighbor from_neighbor_index (some neighbor)))
          ls

/-- One `while let Some(node) = nodes.pop()` round of `fill_neighbors`; the
`Vec` stack is modelled by a cons list (push = cons, pop = head, the same
LIFO discipline). -/
def fillNeighborsLoop :
    Nat → List (List SparseVoxelOctreeNode) → List SparseVoxelOctreeLink →
      Option (List (List SparseVoxelOctreeNode))
  | 0, _, _ => none
  | f + 1, layers, stack =>
    match stack with
    | [] => some layers
    | node :: rest =>
      match ((layers.getD node.layer_index []).getD node.node_index defNode).first_child with
      | none => fillNeighborsLoop f layers rest
      | some first_child =>
        let stack := (List.range 8).foldl
          (fun st i =>
            SparseVoxelOctreeLink.new first_child.layer_index (first_child.node_index + i)
              none :: st)
          rest
        let layers := SIBLING_CONNECTIONS.foldl (siblingWrites first_child) layers
        let layers := (List.range 6).foldl (crossWrites node) layers
        fillNeighborsLoop f layers stack

/-- `SparseVoxelOctreeBuilder::fill_neighbors`; the fuel strictly exceeds
the number of stack pops possible on layered octrees (each pop at layer `l`
pushes children only at layer `l - 1`). -/
def fillNeighbors (layers : List (List SparseVoxelOctreeNode)) :
    Option (List (List SparseVoxelOctreeNode)) :=
  if layers.isEmpty then some layers
  else if (layers.getD 0 []).isEmpty then some layers
  else
    fillNeighborsLoop (9 ^ layers.length + 1) layers
      [SparseVoxelOctreeLink.new (layers.length - 1) 0 none]

/-- The `while current_node_size < size` loop of `build`; the node size at
least doubles each round, so 64 rounds are exhaustive for any `u32` size. -/
def buildLayersLoop :
    Nat → List (List SparseVoxelOctreeNode) → Nat → Nat →
      Option (List (List SparseVoxelOctreeNode))
  | 0, _, _, _ => none
  | f + 1, layers, current_node_size, size =>
    if current_node_size < size then
      match createNextLayer layers current_node_size size with
      | none => none
      | some (next, layer) => buildLayersLoop f (layers ++ [layer]) next size
    else some layers

end SparseVoxelOctreeBuilder

/-- `sparse_voxel_octree_builder.rs::SparseVoxelOctreeBuilder` (the builder
state: voxel size, meshes, optional voxel-space bounds). -/
structure SparseVoxelOctreeBuilder where
  voxel_size : F32
  meshes : List VoxelizedMesh
  min : IVec3
  max : IVec3
deriving Repr

/-- `SparseVoxelOctreeBuilder::new`. -/
def SparseVoxelOctreeBuilder.new (voxel_size : F32) : SparseVoxelOctreeBuilder :=
  ⟨voxel_size, [], IVec3.MAXC, IVec3.MINC⟩

/-- `SparseVoxelOctreeBuilder::add_mesh`. -/
def SparseVoxelOctreeBuilder.addMesh (b : SparseVoxelOctreeBuilder) (mesh : VoxelizedMesh) :
    SparseVoxelOctreeBuilder :=
  { b with meshes := b.meshes ++ [mesh] }

/-- `SparseVoxelOctreeBuilder::set_bounds`. -/
def SparseVoxelOctreeBuilder.setBounds (b : SparseVoxelOctreeBuilder) (mn mx : Vec3) :
    SparseVoxelOctreeBuilder :=
  { b with
    min := (mn / b.voxel_size).floorIVec3
    max := (mx / b.voxel_size).ceilIVec3 }

/-- `SparseVoxelOctreeBuilder::build`; `none` models the panics described at
`createNextLayer` (no octree is produced by the Rust program there). -/
def SparseVoxelOctreeBuilder.build (b : SparseVoxelOctreeBuilder) : Option SparseVoxelOctree :=
  let voxels := b.meshes.foldl (fun acc m => acc ++ m.voxelsOut) []
  let mm := SparseVoxelOctreeBuilder.getMinMax voxels
  let mn := b.min.cmin mm.1
  let mx := b.max.cmax mm.2
  let os := SparseVoxelOctreeBuilder.getOriginAndSize mn mx
  let lz := SparseVoxelOctreeBuilder.collectLeafsAndZeroLayerNodes voxels os.1
  match SparseVoxelOctreeBuilder.buildLayersLoop 64 [lz.1] 4 os.2 with
  | none => none
  | some layers =>
    let layers := SparseVoxelOctreeBuilder.fillParents layers
    match SparseVoxelOctreeBuilder.fillNeighbors layers with
    | none => none
    | some layers => some ⟨b.voxel_size, os.1, layers, lz.2⟩

instance : HMul Vec3 F32 Vec3 := ⟨fun v q => ⟨v.x * q, v.y * q, v.z * q⟩⟩

/-- `UVec3::as_vec3`. -/
def UVec3.asVec3 (a : UVec3) : Vec3 := Vec3.ofInts a.x a.y a.z

/-- `IVec3::as_vec3`. -/
def IVec3.asVec3 (a : IVec3) : Vec3 := Vec3.ofInts a.x a.y a.z

/-- `SparseVoxelOctree::node_position`. -/
def SparseVoxelOctree.nodePosition (t : SparseVoxelOctree) (link : SparseVoxelOctreeLink) :
    Vec3 :=
  let node := t.nodeAt link
  let position := (node.position.asVec3 + t.origin.asVec3) * t.voxel_size
  let scale_f32 : Vec3 :=
    Vec3.ofInts (node.size : Int) (node.size : Int) (node.size : Int) * t.voxel_size
  match link.subnode_index with
  | some subnode =>
    let point := SUBNODE_POSITIONS.getD subnode (0, 0, 0)
    position +
      Vec3.mk (F32.ofInt (point.1 : Int) * t.voxel_size)
        (F32.ofInt (point.2.1 : Int) * t.voxel_size)
        (F32.ofInt (point.2.2 : Int) * t.voxel_size) +
      Vec3.mk (t.voxel_size / F32.ofInt 2) (t.voxel_size / F32.ofInt 2)
        (t.voxel_size / F32.ofInt 2)
  | none => position + scale_f32 / F32.ofInt 2

/-- `SparseVoxelOctree::find_neighboring_subnode_for_subnode`. -/
def SparseVoxelOctree.findNeighboringSubnodeForSubnode (t : SparseVoxelOctree)
    (neighbor_index : Nat) (neighbor : SparseVoxelOctreeLink) (subnode : Nat) :
    Option SparseVoxelOctreeLink :=
  let leaf := t.leafs.getD neighbor.node_index 0
  if leaf.isEmpty then some neighbor
  else if leaf.isFull then none
  else
    let neighbor_index := (SUBNODE_NEIGHBORS.getD subnode []).getD neighbor_index 0
    if !(leaf.getByIndex neighbor_index) then
      some (SparseVoxelOctreeLink.new neighbor.layer_index neighbor.node_index
        (some neighbor_index))
    else none

/-- `SparseVoxelOctree::expand_to_neighboring_subnodes`. -/
def SparseVoxelOctree.expandToNeighboringSubnodes (t : SparseVoxelOctree)
    (neighbor_index : Nat) (neighbor : SparseVoxelOctreeLink) :
    List SparseVoxelOctreeLink :=
  let leaf := t.leafs.getD neighbor.node_index 0
  if leaf.isEmpty then [neighbor]
  else if leaf.isFull then []
  else
    (NEIGHBOR_SUBNODES.getD neighbor_index []).foldl
      (fun result node =>
        if leaf.getByIndex node.2.2.2 then result
        else result ++
          [SparseVoxelOctreeLink.new neighbor.layer_index neighbor.node_index
            (some node.2.2.2)])
      []

/-- Dispatch of one face child inside the `expand_to_neighboring_children`
work-list round: children with children are pushed, leaves expand to their
free subnodes, childless non-leaves are emitted whole. -/
def SparseVoxelOctree.expandChildStep (t : SparseVoxelOctree) (neighbor_index : Nat)
    (first_child : SparseVoxelOctreeLink)
    (st : List SparseVoxelOctreeLink × List SparseVoxelOctreeLink) (nodeoff : Nat) :
    List SparseVoxelOctreeLink × List SparseVoxelOctreeLink :=
  let child := SparseVoxelOctreeLink.new first_child.layer_index
    (first_child.node_index + nodeoff) none
  let child_node := t.nodeAt child
  if child_node.first_child.isSome then (child :: st.1, st.2)
  else if child_node.is_leaf then
    (st.1, st.2 ++ t.expandToNeighboringSubnodes neighbor_index child)
  else (st.1, st.2 ++ [child])

/-- The work-list loop of `expand_to_neighboring_children`; the `Vec` stack
is a cons list (push = cons, pop = head; the same LIFO discipline as
`Vec::push`/`Vec::pop`), `none` models both the `first_child.unwrap()` panic
and fuel exhaustion, neither of which occurs on built octrees. -/
def SparseVoxelOctree.expandToNeighboringChildrenLoop (t : SparseVoxelOctree)
    (neighbor_index : Nat) :
    Nat → List SparseVoxelOctreeLink → List SparseVoxelOctreeLink →
      Option (List SparseVoxelOctreeLink)
  | 0, _, _ => none
  | f + 1, opn, cls =>
    match opn with
    | [] => some cls
    | neighbor :: rest =>
      let node := t.nodeAt neighbor
      match node.first_child with
      | none => none
      | some first_child =>
        let neighboring_nodes := (NEIGHBOR_CONNECTIONS.getD neighbor_index ([], [])).2
        let st := (neighboring_nodes.take 4).foldl
          (t.expandChildStep neighbor_index first_child) (rest, cls)
        t.expandToNeighboringChildrenLoop neighbor_index f st.1 st.2

/-- `SparseVoxelOctree::expand_to_neighboring_children`. -/
def SparseVoxelOctree.expandToNeighboringChildren (t : SparseVoxelOctree)
    (neighbor_index : Nat) (neighbor : SparseVoxelOctreeLink) :
    Option (List SparseVoxelOctreeLink) :=
  t.expandToNeighboringChildrenLoop neighbor_index (5 ^ t.layers.length + 1) [neighbor] []

/-- Handling of one face in `successors` (the body of the `for i in 0..6`
loop); `acc` is `none` when an earlier expansion already failed. -/
def SparseVoxelOctree.successorsStep (t : SparseVoxelOctree) (link : SparseVoxelOctreeLink)
    (node : SparseVoxelOctreeNode) (acc : Option (List SparseVoxelOctreeLink)) (i : Nat) :
    Option (List SparseVoxelOctreeLink) :=
  match acc with
  | none => none
  | some result =>
    match node.neighbors.getD i none with
    | none => some result
    | some neighbor =>
      let neighbor_node := t.nodeAt neighbor
      match link.subnode_index with
      | some subnode =>
        if !(CompoundNode.isFace subnode i) then
          let neighbor_index := (SUBNODE_NEIGHBORS.getD subnode []).getD i 0
          let leaf_node := t.leafs.getD link.node_index 0
          if !(leaf_node.getByIndex neighbor_index) then
            some (result ++
              [SparseVoxelOctreeLink.new link.layer_index link.node_index
                (some neighbor_index)])
          else some result
        else if neighbor_node.first_child.isSome then
          (t.expandToNeighboringChildren i neighbor).map (fun l => result ++ l)
        else if neighbor_node.is_leaf then
          match t.findNeighboringSubnodeForSubnode i neighbor subnode with
          | some n => some (result ++ [n])
          | none => some result
        else some (result ++ [neighbor])
      | none =>
        if neighbor_node.first_child.isSome then
          (t.expandToNeighboringChildren i neighbor).map (fun l => result ++ l)
        else if neighbor_node.is_leaf then
          some (result ++ t.expandToNeighboringSubnodes i neighbor)
        else some (result ++ [neighbor])

/-- `SparseVoxelOctree::successors`. -/
def SparseVoxelOctree.successors (t : SparseVoxelOctree) (link : SparseVoxelOctreeLink) :
    Option (List SparseVoxelOctreeLink) :=
  let node := t.nodeAt link
  (List.range 6).foldl (t.successorsStep link node) (some [])

/-- Step over the Morton-octant table in `find_node`'s descent. -/
def findOffsetIndex (offset : UVec3) : Option Nat :=
  OFFSETS_IN_MORTON_CODE_ORDER.findIdx?
    (fun item => offset = UVec3.mk item.1 item.2.1 item.2.2)

/-- The descent loop of `find_node`; each round either answers or moves one
layer down, so `layers.len + 1` rounds are exhaustive on built octrees
(`none` covers both `break` and fuel exhaustion, as in the source `break`
leads to `None`). -/
def SparseVoxelOctree.findNodeLoop (t : SparseVoxelOctree) (voxel_position : UVec3) :
    Nat → SparseVoxelOctreeLink → Option SparseVoxelOctreeLink
  | 0, _ => none
  | f + 1, current_node =>
    let node := t.nodeAt current_node
    if node.is_leaf && (t.leafs.getD current_node.node_index 0).isEmpty then
      some (SparseVoxelOctreeLink.new current_node.layer_index current_node.node_index none)
    else
      let sub : Option Nat :=
        if node.is_leaf then
          let local_coords := voxel_position - node.position
          mortonAsU8 (mortonEncodeV local_coords)
        else none
      match sub with
      | some voxel_index =>
        some (SparseVoxelOctreeLink.new current_node.layer_index current_node.node_index
          (some voxel_index))
      | none =>
        match node.first_child with
        | some first_child =>
          let offset := (voxel_position - node.position) / (node.size / 2)
          match findOffsetIndex offset with
          | some i =>
            t.findNodeLoop voxel_position f
              (SparseVoxelOctreeLink.new first_child.layer_index
                (first_child.node_index + i) none)
          | none => none
        | none => some current_node

/-- `SparseVoxelOctree::find_node`. -/
def SparseVoxelOctree.findNode (t : SparseVoxelOctree) (position : Vec3) :
    Option SparseVoxelOctreeLink :=
  let voxel_position := (position / t.voxel_size).asIVec3
  let voxel_position := (voxel_position - t.origin).asUVec3
  t.findNodeLoop voxel_position (t.layers.length + 1)
    (SparseVoxelOctreeLink.new (t.layers.length - 1) 0 none)

/-- Scan of one child in the `is_in_line_of_sight` DFS round: `none` means
the scan has already established an intersection (the Rust `return false`). -/
def SparseVoxelOctree.losChildStep (t : SparseVoxelOctree) (fromv tov : UVec3)
    (node : SparseVoxelOctreeNode) (first_child : SparseVoxelOctreeLink)
    (st : Option (List SparseVoxelOctreeLink)) (i : Nat) :
    Option (List SparseVoxelOctreeLink) :=
  match st with
  | none => none
  | some stack =>
    let child_node := t.getNode first_child.layer_index (first_child.node_index + i)
    if cohenSutherland fromv tov child_node.position
        (child_node.position + node.size) = LineClippingResult.Outside then
      some stack
    else if child_node.is_leaf then
      let leaf := t.leafs.getD (first_child.node_index + i) 0
      if leaf.isEmpty then some stack
      else if leaf.isFull then none
      else
        let occupied := leaf.getOccupiedIndexes
        if occupied.any (fun index =>
            match mortonDecodeU8 index with
            | some local_coords =>
              cohenSutherland fromv tov (child_node.position + local_coords)
                (child_node.position + local_coords + (1 : Nat)) ≠
                LineClippingResult.Outside
            | none => false) then
          none
        else some stack
    else
      some (SparseVoxelOctreeLink.new first_child.layer_index
        (first_child.node_index + i) none :: stack)

/-- The DFS loop of `is_in_line_of_sight` (`none` = fuel exhaustion, which
cannot occur on built octrees). -/
def SparseVoxelOctree.losLoop (t : SparseVoxelOctree) (fromv tov : UVec3) :
    Nat → List SparseVoxelOctreeLink → Option Bool
  | 0, _ => none
  | f + 1, opn =>
    match opn with
    | [] => some true
    | link :: rest =>
      let node := t.nodeAt link
      match node.first_child with
      | none => t.losLoop fromv tov f rest
      | some first_child =>
        match (List.range 8).foldl (t.losChildStep fromv tov node first_child)
            (some rest) with
        | none => some false
        | some stack => t.losLoop fromv tov f stack

/-- `SparseVoxelOctree::is_in_line_of_sight`. -/
def SparseVoxelOctree.isInLineOfSight (t : SparseVoxelOctree) (fromw tow : Vec3) :
    Option Bool :=
  let fromv := (((fromw / t.voxel_size).asIVec3 - t.origin).cmax IVec3.zero).asUVec3
  let tov := (((tow / t.voxel_size).asIVec3 - t.origin).cmax IVec3.zero).asUVec3
  t.losLoop fromv tov (9 ^ t.layers.length + 1)
    [SparseVoxelOctreeLink.new (t.layers.length - 1) 0 none]

/-- `SparseVoxelOctree::face_position_between`. -/
def SparseVoxelOctree.facePositionBetween (t : SparseVoxelOctree)
    (a b : SparseVoxelOctreeLink) : Option Vec3 :=
  if a.layer_index = b.layer_index then
    some ((t.nodePosition a + t.nodePosition b) / F32.ofInt 2)
  else
    let p := if a.layer_index > b.layer_index then (b, a) else (a, b)
    (List.range 6).foldl
      (fun acc i =>
        match acc with
        | some r => some r
        | none =>
          match (t.nodeAt p.1).neighbors.getD i none with
          | some n =>
            if n = p.2 then
              let node := t.nodeAt n
              let offv := NEIGHBOR_POSITION_OFFSETS.getD i (0, 0, 0)
              some (t.nodePosition n +
                Vec3.mk (F32.ofInt offv.1 * F32.ofInt (node.size : Int) / F32.ofInt 2 *
                    t.voxel_size)
                  (F32.ofInt offv.2.1 * F32.ofInt (node.size : Int) / F32.ofInt 2 *
                    t.voxel_size)
                  (F32.ofInt offv.2.2 * F32.ofInt (node.size : Int) / F32.ofInt 2 *
                    t.voxel_size))
            else none
          | none => none)
      none

/-! ### Concrete builds used by the verification -/

/-- Builder with `voxel_size = 1.0` over the voxels `(0,0,0)` and `(7,7,7)`
(no bounds). -/
def builderA : SparseVoxelOctreeBuilder :=
  (SparseVoxelOctreeBuilder.new (F32.ofInt 1)).addMesh
    (VoxelizedMesh.new [⟨0, 0, 0⟩, ⟨7, 7, 7⟩] (F32.ofInt 1) IVec3.zero)

/-- The octree built from `builderA`. -/
def octreeA : Option SparseVoxelOctree := builderA.build

/-- `builderA` plus one more voxel at `(-6,-6,-6)`. -/
def builderB : SparseVoxelOctreeBuilder :=
  builderA.addMesh (VoxelizedMesh.new [⟨0, 0, 0⟩] (F32.ofInt 1) ⟨-6, -6, -6⟩)

/-- The octree built from `builderB`. -/
def octreeB : Option SparseVoxelOctree := builderB.build

/-- Builder with a single blocking voxel `(0,1,0)` and bounds `±4`
(the doc-test configuration of `is_in_line_of_sight`). -/
def builderBlocker : SparseVoxelOctreeBuilder :=
  (((SparseVoxelOctreeBuilder.new (F32.ofInt 1)).addMesh
    (VoxelizedMesh.new [⟨0, 1, 0⟩] (F32.ofInt 1) IVec3.zero)).setBounds
      (Vec3.ofInts (-4) (-4) (-4)) (Vec3.ofInts 4 4 4))

/-- The octree built from `builderBlocker`. -/
def octreeBlocker : Option SparseVoxelOctree := builderBlocker.build

/-- Builder with the single voxel `(0,3,0)` and bounds pinned so that the
built octree's origin is `(0,0,0)` (scenario 1 of the spec). -/
def builderSingle : SparseVoxelOctreeBuilder :=
  (((SparseVoxelOctreeBuilder.new (F32.ofInt 1)).addMesh
    (VoxelizedMesh.new [⟨0, 3, 0⟩] (F32.ofInt 1) IVec3.zero)).setBounds
      (Vec3.ofInts 0 0 0) (Vec3.ofInts 0 0 0))

/-- The octree built from `builderSingle`. -/
def octreeSingle : Option SparseVoxelOctree := builderSingle.build

/-- Builder with no meshes and bounds `(-4,-4,-4)..(4,4,4)`. -/
def builderEmptyBounded : SparseVoxelOctreeBuilder :=
  (SparseVoxelOctreeBuilder.new (F32.ofInt 1)).setBounds
    (Vec3.ofInts (-4) (-4) (-4)) (Vec3.ofInts 4 4 4)

/-- The octree built from `builderEmptyBounded`. -/
def octreeEmptyBounded : Option SparseVoxelOctree := builderEmptyBounded.build

/-- Builder with no meshes and no bounds. -/
def builderEmpty : SparseVoxelOctreeBuilder := SparseVoxelOctreeBuilder.new (F32.ofInt 1)

/-- The octree built from `builderEmpty`. -/
def octreeEmpty : Option SparseVoxelOctree := builderEmpty.build

/-- A point `v` lies in the half-open region of a node at `pos` of the given
`size` (voxel units, octree coordinates). -/
def inNodeRegion (pos : UVec3) (size : Nat) (v : UVec3) : Prop :=
  pos.x ≤ v.x ∧ v.x < pos.x + size ∧
  pos.y ≤ v.y ∧ v.y < pos.y + size ∧
  pos.z ≤ v.z ∧ v.z < pos.z + size

instance (pos : UVec3) (size : Nat) (v : UVec3) : Decidable (inNodeRegion pos size v) := by
  unfold inNodeRegion; infer_instance

/-- The voxel cell at octree coordinate `v` is occupied: some layer-0 node
covers `v` and the corresponding compound word has the bit of `v`'s 8-bit
Morton index set. -/
def SparseVoxelOctree.cellOccupied (t : SparseVoxelOctree) (v : UVec3) : Prop :=
  ∃ i < (t.layers.getD 0 []).length,
    inNodeRegion ((t.layers.getD 0 []).getD i defNode).position 4 v ∧
    (t.leafs.getD i 0).getByIndex
      (mortonEncodeV (v - ((t.layers.getD 0 []).getD i defNode).position)) = true

instance (t : SparseVoxelOctree) (v : UVec3) : Decidable (t.cellOccupied v) := by
  unfold SparseVoxelOctree.cellOccupied; infer_instance

/-- Voxels collated by `build` from the builder's meshes. -/
def SparseVoxelOctreeBuilder.collatedVoxels (b : SparseVoxelOctreeBuilder) : List IVec3 :=
  b.meshes.foldl (fun acc m => acc ++ m.voxelsOut) []

/-! ### Claim theorems: concrete scenarios -/

/-- C9: on the octree built with `voxel_size` 1.0 and origin `(0,0,0)` from
the single voxel `(0,3,0)` (origin pinned through `set_bounds`),
`find_node((0,3,0))` returns the link with layer 0, node index 0 and
subnode index `morton8(0,3,0) = 18`. -/
theorem c9_single_voxel_find_node :
    builderSingle.collatedVoxels = [⟨0, 3, 0⟩] ∧
    octreeSingle.map (fun t => (t.origin, t.findNode (Vec3.ofInts 0 3 0))) =
      some (⟨0, 0, 0⟩, some (SparseVoxelOctreeLink.new 0 0 (some 18))) ∧
    mortonEncode 0 3 0 = 18 :=
  ⟨by decide, by decide, by decide⟩

/-- C5 (counterexample): building with `voxel_size` 1.0, no meshes and
bounds `(-4,-4,-4)..(4,4,4)` yields two layers that are both empty — the
leaves layer does not contain 8 empty size-4 nodes and the root layer does
not contain 1 size-8 node. -/
theorem c5_counterexample :
    octreeEmptyBounded.map (fun t => t.layers.map List.length) = some [0, 0] ∧
    [(0 : Nat), 0] ≠ [8, 1] :=
  ⟨by decide, by decide⟩

/-- C5 (amended): building with `voxel_size` 1.0, no meshes and bounds
`(-4,-4,-4)..(4,4,4)` yields an octree with exactly two layers, each
containing zero nodes, and an empty leaf array. -/
theorem c5_empty_bounded_build :
    octreeEmptyBounded.map (fun t => (t.layers.map List.length, t.leafs.length)) =
      some ([0, 0], 0) := by decide

/-- C8 (counterexample): on the octree built from voxels `(0,0,0)` and
`(7,7,7)`, the layer-0 links 0 (leaf at `(0,0,0)`) and 7 (leaf at
`(4,4,4)`) record each other in neither `neighbors` array, yet
`face_position_between` returns the midpoint `(4,4,4)` of their centers
rather than nothing. -/
theorem c8_counterexample :
    octreeA.map (fun t =>
      (decide (some (SparseVoxelOctreeLink.new 0 7 none) ∈
         (t.nodeAt (SparseVoxelOctreeLink.new 0 0 none)).neighbors),
       decide (some (SparseVoxelOctreeLink.new 0 0 none) ∈
         (t.nodeAt (SparseVoxelOctreeLink.new 0 7 none)).neighbors),
       (t.facePositionBetween (SparseVoxelOctreeLink.new 0 0 none)
           (SparseVoxelOctreeLink.new 0 7 none)).map
         (fun v => decide (v.eqv (Vec3.ofInts 4 4 4))))) =
    some (false, false, some true) := by decide

/-- C4 (counterexample): `builderB` extends `builderA` by the single voxel
`(-6,-6,-6)` under identical (absent) bounds; the line of sight from
`(-5,0,0)` to `(-5,3,0)` is `false` on the first build but `true` on the
second (the added voxel moves the octree origin, which changes the
clamping of the endpoints). -/
theorem c4_counterexample :
    builderB.collatedVoxels = builderA.collatedVoxels ++ [⟨-6, -6, -6⟩] ∧
    builderB.min = builderA.min ∧ builderB.max = builderA.max ∧
    octreeA.map (fun t => t.isInLineOfSight (Vec3.ofInts (-5) 0 0) (Vec3.ofInts (-5) 3 0)) =
      some (some false) ∧
    octreeB.map (fun t => t.isInLineOfSight (Vec3.ofInts (-5) 0 0) (Vec3.ofInts (-5) 3 0)) =
      some (some true) :=
  ⟨by decide, by decide, by decide, by decide, by decide⟩

/-- C3 (counterexample): on the octree built from the blocking voxel
`(0,1,0)` with bounds `±4`, the world point `(0,2,0)` converts to the
octree cell `(4,6,4)`, that cell is unoccupied (free space), yet
`is_in_line_of_sight((0,2,0),(0,2,0))` returns `false` — the point lies on
the closed boundary of the occupied voxel's box. -/
theorem c3_counterexample :
    octreeBlocker.map (fun t =>
      ((((Vec3.ofInts 0 2 0) / t.voxel_size).asIVec3 - t.origin).asUVec3,
       decide (t.cellOccupied ⟨4, 6, 4⟩),
       t.isInLineOfSight (Vec3.ofInts 0 2 0) (Vec3.ofInts 0 2 0))) =
    some (⟨4, 6, 4⟩, false, some false) := by decide

/-- C7 (counterexample): on the octree built from voxels `(0,0,0)` and
`(7,7,7)`, the layer-0 node at index 1 is the padding leaf at `(4,0,0)`:
no input voxel falls inside it, yet its `is_leaf` flag is set (the
`SparseVoxelOctreeNode::leaf` constructor sets the flag for every layer-0
node, padding included). -/
theorem c7_counterexample :
    builderA.collatedVoxels = [⟨0, 0, 0⟩, ⟨7, 7, 7⟩] ∧
    octreeA.map (fun t =>
      (((t.layers.getD 0 []).getD 1 defNode).position,
       ((t.layers.getD 0 []).getD 1 defNode).is_leaf,
       decide (∀ v ∈ builderA.collatedVoxels,
         ¬ inNodeRegion ⟨4, 0, 0⟩ 4 ((v - t.origin).asUVec3)))) =
      some (⟨4, 0, 0⟩, true, true) :=
  ⟨by decide, by decide⟩

/-- A successful `is_power_of_two` test yields an exponent. -/
theorem isPowerOfTwo_exists {n : Nat} (h : isPowerOfTwo n = true) : ∃ k, n = 2 ^ k := by
  unfold isPowerOfTwo at h
  rw [List.any_eq_true] at h
  obtain ⟨k, _, hk⟩ := h
  exact ⟨k, by simpa using hk⟩

/-- The doubling loop reaches a power of two that covers `n`, as long as
the fuel suffices. -/
theorem nextPowerOfTwoAux_spec :
    ∀ (f acc n : Nat), (∃ j, acc = 2 ^ j) → n ≤ acc * 2 ^ f →
      ∃ k, nextPowerOfTwoAux n f acc = 2 ^ k ∧ n ≤ 2 ^ k := by
  intro f
  induction f with
  | zero =>
    intro acc n hj h
    obtain ⟨j, hj⟩ := hj
    exact ⟨j, by simp [nextPowerOfTwoAux, hj], by simpa [hj] using h⟩
  | succ f ih =>
    intro acc n hj h
    obtain ⟨j, hj⟩ := hj
    by_cases hle : n ≤ acc
    · refine ⟨j, ?_, hj ▸ hle⟩
      rw [nextPowerOfTwoAux, if_pos hle, hj]
    · have h2 : n ≤ 2 * acc * 2 ^ f := by
        calc n ≤ acc * 2 ^ (f + 1) := h
          _ = 2 * acc * 2 ^ f := by ring
      have hrec := ih (2 * acc) n ⟨j + 1, by rw [hj]; ring⟩ h2
      rw [nextPowerOfTwoAux, if_neg hle]
      exact hrec

/-- C6 (amended): there is no clamping of the size to at least 4: when the
corners coincide the size is 1, and otherwise (for corners in `u32` range
with `min ≤ max`) the size is the exact next power of two covering the
maximal extent, which can be 1 or 2; building with no voxels and no bounds
yields one single empty layer (no size-4 root node is created). -/
theorem c6_amended :
    (∀ mn : IVec3, SparseVoxelOctreeBuilder.getOriginAndSize mn mn = (mn, 1)) ∧
    (∀ mn mx : IVec3, mn.x ≤ mx.x → mn.y ≤ mx.y → mn.z ≤ mx.z → mn ≠ mx →
      (mx - mn).maxElement ≤ 2 ^ 32 →
      (SparseVoxelOctreeBuilder.getOriginAndSize mn mx).1 = mn ∧
      ∃ k, (SparseVoxelOctreeBuilder.getOriginAndSize mn mx).2 = 2 ^ k ∧
        ((mx - mn).maxElement).toNat ≤ 2 ^ k) ∧
    octreeEmpty.map (fun t => (t.layers.map List.length, t.leafs.length)) = some ([0], 0) := by
  refine ⟨fun mn => by simp [SparseVoxelOctreeBuilder.getOriginAndSize], ?_, by decide⟩
  intro mn mx _ _ _ hne hbound
  refine ⟨by simp [SparseVoxelOctreeBuilder.getOriginAndSize, if_neg hne], ?_⟩
  simp only [SparseVoxelOctreeBuilder.getOriginAndSize, if_neg hne]
  by_cases hpow : isPowerOfTwo ((mx - mn).maxElement).toNat
  · obtain ⟨k, hk⟩ := isPowerOfTwo_exists hpow
    refine ⟨k, ?_, hk ▸ Nat.le_refl _⟩
    rw [hpow]
    simpa using hk
  · rw [Bool.not_eq_true] at hpow
    rw [hpow]
    simp only [Bool.not_false, if_true]
    refine nextPowerOfTwoAux_spec 33 1 _ ⟨0, rfl⟩ ?_
    have h1 : ((mx - mn).maxElement).toNat ≤ 2 ^ 32 := by omega
    calc ((mx - mn).maxElement).toNat ≤ 2 ^ 32 := h1
      _ ≤ 1 * 2 ^ 33 := by norm_num

/-- Closed instance of the amended C6 statement at the corners `(0,0,0)`
and `(0,3,0)`: the size is the power of two 4 covering the extent 3. -/
theorem c6_amended_witness :
    (SparseVoxelOctreeBuilder.getOriginAndSize ⟨0, 0, 0⟩ ⟨0, 3, 0⟩).1 = ⟨0, 0, 0⟩ ∧
    ∃ k, (SparseVoxelOctreeBuilder.getOriginAndSize ⟨0, 0, 0⟩ ⟨0, 3, 0⟩).2 = 2 ^ k ∧
      (((⟨0, 3, 0⟩ : IVec3) - (⟨0, 0, 0⟩ : IVec3)).maxElement).toNat ≤ 2 ^ k :=
  c6_amended.2.1 ⟨0, 0, 0⟩ ⟨0, 3, 0⟩ (by decide) (by decide) (by decide) (by decide)
    (by decide)

/-- A default octree value (only used to extract concrete builds). -/
def defOctree : SparseVoxelOctree := ⟨F32.ofInt 1, IVec3.zero, [], []⟩

/-- The concrete octree of `builderA` (the build succeeds, see
`c7_counterexample`). -/
def octreeAval : SparseVoxelOctree := octreeA.getD defOctree

/-- A left fold whose step keeps `none` on every listed element stays
`none`. -/
theorem foldlNoneOf {α β : Type} (f : Option β → α → Option β) (l : List α)
    (h : ∀ i ∈ l, f none i = none) : l.foldl f none = none := by
  induction l with
  | nil => rfl
  | cons i rest ih =>
    rw [List.foldl_cons, h i (List.mem_cons_self i rest)]
    exact ih (fun j hj => h j (List.mem_cons_of_mem i hj))

/-- C8 (amended): `face_position_between` ignores linkage for same-layer
pairs — it always returns the midpoint of the two node centers — and for
pairs in different layers it returns nothing exactly when the finer link's
node does not record the other in its `neighbors` array (only the finer
node's slots are consulted). -/
theorem c8_amended :
    (∀ (t : SparseVoxelOctree) (a b : SparseVoxelOctreeLink),
      a.layer_index ≠ b.layer_index →
      (∀ i < 6,
        (t.nodeAt (if a.layer_index > b.layer_index then b else a)).neighbors.getD i none ≠
          some (if a.layer_index > b.layer_index then a else b)) →
      t.facePositionBetween a b = none) ∧
    (∀ (t : SparseVoxelOctree) (a b : SparseVoxelOctreeLink),
      a.layer_index = b.layer_index →
      t.facePositionBetween a b =
        some ((t.nodePosition a + t.nodePosition b) / F32.ofInt 2)) := by
  constructor
  · intro t a b hne hnot
    unfold SparseVoxelOctree.facePositionBetween
    rw [if_neg hne]
    set p := if a.layer_index > b.layer_index then (b, a) else (a, b) with hp
    have hfin : p.1 = (if a.layer_index > b.layer_index then b else a) := by
      by_cases h : a.layer_index > b.layer_index <;> simp [hp, h]
    have hoth : p.2 = (if a.layer_index > b.layer_index then a else b) := by
      by_cases h : a.layer_index > b.layer_index <;> simp [hp, h]
    refine foldlNoneOf _ _ ?_
    intro i hi
    have hni := hnot i (List.mem_range.mp hi)
    rw [← hfin, ← hoth] at hni
    show (match (t.nodeAt p.1).neighbors.getD i none with
      | some n =>
        if n = p.2 then
          let node := t.nodeAt n
          let offv := NEIGHBOR_POSITION_OFFSETS.getD i (0, 0, 0)
          some (t.nodePosition n +
            Vec3.mk (F32.ofInt offv.1 * F32.ofInt (node.size : Int) / F32.ofInt 2 *
                t.voxel_size)
              (F32.ofInt offv.2.1 * F32.ofInt (node.size : Int) / F32.ofInt 2 *
                t.voxel_size)
              (F32.ofInt offv.2.2 * F32.ofInt (node.size : Int) / F32.ofInt 2 *
                t.voxel_size))
        else none
      | none => none) = none
    cases hg : (t.nodeAt p.1).neighbors.getD i none with
    | none => rfl
    | some n =>
      have hnp : n ≠ p.2 := by
        intro h
        exact hni (by rw [hg, h])
      simp [hnp]
  · intro t a b heq
    unfold SparseVoxelOctree.facePositionBetween
    rw [if_pos heq]

/-- Closed instance of the amended C8 statement on the build of `builderA`:
the root link `(1,0)` and the leaf link `(0,7)` are in different layers,
the finer node records no link to the root, and `face_position_between`
returns nothing. -/
theorem c8_amended_witness :
    octreeAval.facePositionBetween (SparseVoxelOctreeLink.new 1 0 none)
      (SparseVoxelOctreeLink.new 0 7 none) = none :=
  c8_amended.1 octreeAval (SparseVoxelOctreeLink.new 1 0 none)
    (SparseVoxelOctreeLink.new 0 7 none) (by decide) (by decide)

/-! ### List update lemmas -/

theorem listModify_length {α : Type} (l : List α) (n : Nat) (f : α → α) :
    (listModify l n f).length = l.length := by
  induction l generalizing n with
  | nil => rfl
  | cons a as ih =>
    cases n with
    | zero => rfl
    | succ n => simpa [listModify] using ih n

theorem listModify_getD_ne {α : Type} (l : List α) (n : Nat) (f : α → α) (i : Nat) (d : α)
    (h : i ≠ n) : (listModify l n f).getD i d = l.getD i d := by
  induction l generalizing n i with
  | nil => rfl
  | cons a as ih =>
    cases n with
    | zero =>
      cases i with
      | zero => exact absurd rfl h
      | succ i => simp [listModify, List.getD]
    | succ n =>
      cases i with
      | zero => simp [listModify, List.getD]
      | succ i =>
        simp only [listModify, List.getD_cons_succ]
        exact ih n i (fun he => h (by rw [he]))

theorem listModify_getD_self {α : Type} (l : List α) (n : Nat) (f : α → α) (d : α)
    (h : n < l.length) : (listModify l n f).getD n d = f (l.getD n d) := by
  induction l generalizing n with
  | nil => simp at h
  | cons a as ih =>
    cases n with
    | zero => rfl
    | succ n =>
      simp only [listModify, List.getD_cons_succ]
      exact ih n (by simpa using h)

theorem layersModify_length (ls : List (List SparseVoxelOctreeNode)) (l n : Nat) (f) :
    ∀ j, ((layersModify ls l n f).getD j []).length = (ls.getD j []).length := by
  intro j
  by_cases hj : j = l
  · subst hj
    by_cases hl : j < ls.length
    · rw [layersModify, listModify_getD_self ls j _ [] hl, listModify_length]
    · have hge : ls.length ≤ j := Nat.le_of_not_lt hl
      have h1 : (listModify ls j (fun lay => listModify lay n f)).getD j [] = [] :=
        List.getD_eq_default _ _ (by simpa [listModify_length] using hge)
      have h2 : ls.getD j [] = [] := List.getD_eq_default _ _ hge
      rw [layersModify, h1, h2]
  · rw [layersModify, listModify_getD_ne _ _ _ _ _ hj]

theorem layersModify_getD_ne (ls : List (List SparseVoxelOctreeNode)) (l n : Nat) (f)
    (j i : Nat) (h : ¬(j = l ∧ i = n)) :
    ((layersModify ls l n f).getD j []).getD i defNode = ((ls.getD j []).getD i defNode) := by
  by_cases hj : j = l
  · subst hj
    have hi : i ≠ n := fun he => h ⟨rfl, he⟩
    by_cases hl : j < ls.length
    · rw [layersModify, listModify_getD_self ls j _ [] hl, listModify_getD_ne _ _ _ _ _ hi]
    · have hge : ls.length ≤ j := Nat.le_of_not_lt hl
      have h1 : (listModify ls j (fun lay => listModify lay n f)).getD j [] = [] :=
        List.getD_eq_default _ _ (by simpa [listModify_length] using hge)
      have h2 : ls.getD j [] = [] := List.getD_eq_default _ _ hge
      rw [layersModify, h1, h2]
  · rw [layersModify, listModify_getD_ne _ _ _ _ _ hj]

theorem layersModify_getD_self (ls : List (List SparseVoxelOctreeNode)) (l n : Nat) (f)
    (hl : l < ls.length) (hn : n < (ls.getD l []).length) :
    ((layersModify ls l n f).getD l []).getD n defNode = f ((ls.getD l []).getD n defNode) := by
  rw [layersModify, listModify_getD_self ls l _ [] hl, listModify_getD_self _ _ _ _ hn]

theorem mem_of_getD {α : Type} (l : List α) (i : Nat) (d : α) (h : i < l.length) :
    l.getD i d ∈ l := by
  rw [List.getD_eq_getElem l d h]
  exact List.getElem_mem h

/-! ### Structural invariants of built layer stacks -/

/-- Convenient read of `layers[l][i]` (out-of-range reads give `defNode`). -/
def getN (ls : List (List SparseVoxelOctreeNode)) (l i : Nat) : SparseVoxelOctreeNode :=
  (ls.getD l []).getD i defNode

/-- Sizes are uniform per layer: `4 * 2 ^ l`. -/
def SizeInv (ls : List (List SparseVoxelOctreeNode)) : Prop :=
  ∀ l < ls.length, ∀ i < (ls.getD l []).length, (getN ls l i).size = 4 * 2 ^ l

/-- Every `first_child` link points one layer down at a full octet of
existing children and carries no subnode index. -/
def FCInv (ls : List (List SparseVoxelOctreeNode)) : Prop :=
  ∀ l i fc, (getN ls l i).first_child = some fc →
    fc.layer_index + 1 = l ∧ l < ls.length ∧ i < (ls.getD l []).length ∧
    fc.node_index + 8 ≤ (ls.getD fc.layer_index []).length ∧ fc.subnode_index = none

/-- Layer-0 nodes are leaves without children. -/
def LZInv (ls : List (List SparseVoxelOctreeNode)) : Prop :=
  ∀ i < (ls.getD 0 []).length, (getN ls 0 i).first_child = none ∧ (getN ls 0 i).is_leaf = true

/-- Every neighbor link of a node in layer `l` is a whole-node link to an
existing node in the same or a coarser layer. -/
def NInv (ls : List (List SparseVoxelOctreeNode)) : Prop :=
  ∀ l i j tgt, (getN ls l i).neighbors.getD j none = some tgt →
    l ≤ tgt.layer_index ∧ tgt.layer_index < ls.length ∧
    tgt.node_index < (ls.getD tgt.layer_index []).length ∧ tgt.subnode_index = none

/-- The conjunction of the four layer-stack invariants. -/
def LInv (ls : List (List SparseVoxelOctreeNode)) : Prop :=
  SizeInv ls ∧ FCInv ls ∧ LZInv ls ∧ NInv ls

/-- Lengths of all layers agree between two stacks. -/
def LenEq (ls ls2 : List (List SparseVoxelOctreeNode)) : Prop :=
  ls.length = ls2.length ∧ ∀ l, (ls.getD l []).length = (ls2.getD l []).length

theorem LenEq.refl (ls : List (List SparseVoxelOctreeNode)) : LenEq ls ls := ⟨rfl, fun _ => rfl⟩

theorem LenEq.trans {a b c : List (List SparseVoxelOctreeNode)} (h1 : LenEq a b)
    (h2 : LenEq b c) : LenEq a c :=
  ⟨h1.1.trans h2.1, fun l => (h1.2 l).trans (h2.2 l)⟩

/-- Out-of-range reads yield `defNode`, whose `neighbors` slots are all
`none` and whose `first_child` is `none`. -/
theorem defNode_neighbors_getD (j : Nat) : defNode.neighbors.getD j none = none := by
  have h6 : defNode.neighbors = List.replicate 6 none := rfl
  rw [h6]
  by_cases h : j < 6
  · rw [List.getD_eq_getElem _ _ (by simpa using h), List.getElem_replicate]
  · exact List.getD_eq_default _ _ (by simpa using Nat.le_of_not_lt h)

theorem listModify_of_le {α : Type} (l : List α) (n : Nat) (f : α → α)
    (h : l.length ≤ n) : listModify l n f = l := by
  induction l generalizing n with
  | nil => rfl
  | cons a as ih =>
    cases n with
    | zero => simp at h
    | succ n => simpa [listModify] using ih n (by simpa using h)

/-- Reading through a single-slot update of the stack. -/
theorem getN_layersModify (ls : List (List SparseVoxelOctreeNode)) (L I : Nat)
    (fmod : SparseVoxelOctreeNode → SparseVoxelOctreeNode) (l i : Nat) :
    getN (layersModify ls L I fmod) l i =
      if l = L ∧ i = I ∧ L < ls.length ∧ I < (ls.getD L []).length then fmod (getN ls L I)
      else getN ls l i := by
  by_cases h : l = L ∧ i = I
  · obtain ⟨rfl, rfl⟩ := h
    by_cases hl : l < ls.length
    · by_cases hi : i < (ls.getD l []).length
      · rw [if_pos ⟨rfl, rfl, hl, hi⟩]
        exact layersModify_getD_self ls l i fmod hl hi
      · rw [if_neg (by tauto)]
        unfold getN layersModify
        rw [listModify_getD_self ls l _ [] hl, listModify_of_le _ _ _ (Nat.le_of_not_lt hi)]
    · rw [if_neg (by tauto)]
      unfold layersModify
      rw [listModify_of_le _ _ _ (Nat.le_of_not_lt hl)]
  · rw [if_neg (by tauto)]
    exact layersModify_getD_ne ls L I fmod l i h

/-- Reading through a single-slot update of a neighbors array. -/
theorem getD_set_option {α : Type} (nbrs : List (Option α)) (f j : Nat) (v : Option α) :
    (nbrs.set f v).getD j none =
      if j = f ∧ f < nbrs.length then v else nbrs.getD j none := by
  by_cases h : j = f ∧ f < nbrs.length
  · obtain ⟨rfl, hf⟩ := h
    rw [if_pos ⟨rfl, hf⟩, List.getD_eq_getElem _ _ (by simpa [List.length_set] using hf),
      List.getElem_set_self]
  · rw [if_neg h]
    by_cases hjf : j = f
    · subst hjf
      have hge : nbrs.length ≤ j := by
        rcases Nat.lt_or_ge j nbrs.length with h1 | h1
        · exact absurd ⟨rfl, h1⟩ h
        · exact h1
      rw [List.getD_eq_default _ _ (by simpa [List.length_set] using hge),
        List.getD_eq_default _ _ hge]
    · by_cases hjl : j < nbrs.length
      · rw [List.getD_eq_getElem _ _ (by simpa [List.length_set] using hjl),
          List.getD_eq_getElem _ _ hjl, List.getElem_set_ne (by omega)]
      · rw [List.getD_eq_default _ _ (by simpa [List.length_set] using Nat.le_of_not_lt hjl),
          List.getD_eq_default _ _ (Nat.le_of_not_lt hjl)]

/-- Writing one neighbor slot with a link that satisfies the `NInv` side
conditions preserves all four invariants and the layer lengths. -/
theorem LInv_setNeighbor (ls : List (List SparseVoxelOctreeNode)) (L I f : Nat)
    (tgt : SparseVoxelOctreeLink) (hInv : LInv ls) (hup : L ≤ tgt.layer_index)
    (hvalid : tgt.layer_index < ls.length ∧
      tgt.node_index < (ls.getD tgt.layer_index []).length ∧ tgt.subnode_index = none) :
    LInv (layersModify ls L I (fun nd => nd.setNeighbor f (some tgt))) ∧
    LenEq ls (layersModify ls L I (fun nd => nd.setNeighbor f (some tgt))) := by
  obtain ⟨hS, hF, hZ, hN⟩ := hInv
  have hlen : ∀ j, ((layersModify ls L I (fun nd => nd.setNeighbor f (some tgt))).getD j
      []).length = (ls.getD j []).length := fun j => layersModify_length ls L I _ j
  have hlenT : (layersModify ls L I (fun nd => nd.setNeighbor f (some tgt))).length =
      ls.length := listModify_length _ _ _
  refine ⟨⟨?_, ?_, ?_, ?_⟩, hlenT.symm, fun j => (hlen j).symm⟩
  · intro l hl i hi
    show (getN _ l i).size = 4 * 2 ^ l
    rw [getN_layersModify]
    split
    · rename_i hcase
      obtain ⟨rfl, rfl, hL, hI⟩ := hcase
      show (getN ls l i).size = 4 * 2 ^ l
      exact hS l hL i hI
    · exact hS l (by rwa [hlenT] at hl) i (by rwa [hlen] at hi)
  · intro l i fc hfc
    rw [getN_layersModify] at hfc
    have hfc2 : (getN ls l i).first_child = some fc := by
      revert hfc
      split
      · rename_i hcase
        obtain ⟨rfl, rfl, hL, hI⟩ := hcase
        exact id
      · exact id
    obtain ⟨h1, h2, h3, h4, h5⟩ := hF l i fc hfc2
    exact ⟨h1, by rwa [hlenT], by rwa [hlen], by rwa [hlen], h5⟩
  · intro i hi
    rw [hlen] at hi
    obtain ⟨h1, h2⟩ := hZ i hi
    constructor
    · show (getN _ 0 i).first_child = none
      rw [getN_layersModify]
      split
      · rename_i hcase
        obtain ⟨rfl, rfl, hL, hI⟩ := hcase
        exact h1
      · exact h1
    · show (getN _ 0 i).is_leaf = true
      rw [getN_layersModify]
      split
      · rename_i hcase
        obtain ⟨rfl, rfl, hL, hI⟩ := hcase
        exact h2
      · exact h2
  · intro l i j t ht
    rw [getN_layersModify] at ht
    revert ht
    split
    · rename_i hcase
      obtain ⟨rfl, rfl, hL, hI⟩ := hcase
      intro ht
      unfold SparseVoxelOctreeNode.setNeighbor at ht
      simp only at ht
      rw [getD_set_option] at ht
      revert ht
      split
      · intro ht
        cases ht
        exact ⟨hup, by rw [hlenT]; exact hvalid.1, by rw [hlen]; exact hvalid.2.1,
          hvalid.2.2⟩
      · intro ht
        obtain ⟨h1, h2, h3, h4⟩ := hN l i j t ht
        exact ⟨h1, by rwa [hlenT], by rwa [hlen], h4⟩
    · intro ht
      obtain ⟨h1, h2, h3, h4⟩ := hN l i j t ht
      exact ⟨h1, by rwa [hlenT], by rwa [hlen], h4⟩

/-- Hoare-style invariant preservation for a left fold. -/
theorem foldl_inv {α σ : Type} (P : σ → Prop) (l : List α) (step : σ → α → σ) (init : σ)
    (h : ∀ s x, x ∈ l → P s → P (step s x)) (h0 : P init) : P (l.foldl step init) := by
  induction l generalizing init with
  | nil => exact h0
  | cons a as ih =>
    rw [List.foldl_cons]
    exact ih (step init a) (fun s x hx hs => h s x (List.mem_cons_of_mem a hx) hs)
      (h init a (List.mem_cons_self a as) h0)

/-- Entries of the sibling-connection table stay below the octet size and
the face count. -/
theorem sibling_conn_bounds :
    ∀ conn ∈ SIBLING_CONNECTIONS,
      conn.1 < 6 ∧ conn.2.1 < 6 ∧ conn.2.2.1 < 8 ∧ conn.2.2.2 < 8 := by decide

/-- Entries of the neighbor-connection table stay below the octet size. -/
theorem nc_fst_lt (i : Nat) : ∀ x ∈ (NEIGHBOR_CONNECTIONS.getD i ([], [])).1, x < 8 := by
  by_cases h : i < 6
  · have hall : ∀ i < 6, ∀ x ∈ (NEIGHBOR_CONNECTIONS.getD i ([], [])).1, x < 8 := by decide
    exact hall i h
  · rw [List.getD_eq_default _ _ (by simpa using Nat.le_of_not_lt h)]
    intro x hx
    cases hx

/-- Entries of the neighbor-connection table stay below the octet size. -/
theorem nc_snd_lt (i : Nat) : ∀ x ∈ (NEIGHBOR_CONNECTIONS.getD i ([], [])).2, x < 8 := by
  by_cases h : i < 6
  · have hall : ∀ i < 6, ∀ x ∈ (NEIGHBOR_CONNECTIONS.getD i ([], [])).2, x < 8 := by decide
    exact hall i h
  · rw [List.getD_eq_default _ _ (by simpa using Nat.le_of_not_lt h)]
    intro x hx
    cases hx

/-- Positions of `getD` reads on the neighbor-connection table. -/
theorem nc_fst_getD_lt (i k : Nat) (hk : k < ((NEIGHBOR_CONNECTIONS.getD i ([], [])).1).length) :
    (NEIGHBOR_CONNECTIONS.getD i ([], [])).1.getD k 0 < 8 :=
  nc_fst_lt i _ (mem_of_getD _ k 0 hk)

theorem nc_snd_getD_lt (i k : Nat) (hk : k < ((NEIGHBOR_CONNECTIONS.getD i ([], [])).2).length) :
    (NEIGHBOR_CONNECTIONS.getD i ([], [])).2.getD k 0 < 8 :=
  nc_snd_lt i _ (mem_of_getD _ k 0 hk)

/-- The `getD` default 0 keeps neighbor-connection reads below 8. -/
theorem nc_fst_getD_lt8 (i k : Nat) :
    (NEIGHBOR_CONNECTIONS.getD i ([], [])).1.getD k 0 < 8 := by
  by_cases h : k < ((NEIGHBOR_CONNECTIONS.getD i ([], [])).1).length
  · exact nc_fst_lt i _ (mem_of_getD _ k 0 h)
  · rw [List.getD_eq_default _ _ (Nat.le_of_not_lt h)]
    decide

/-- The `getD` default 0 keeps neighbor-connection reads below 8. -/
theorem nc_snd_getD_lt8 (i k : Nat) :
    (NEIGHBOR_CONNECTIONS.getD i ([], [])).2.getD k 0 < 8 := by
  by_cases h : k < ((NEIGHBOR_CONNECTIONS.getD i ([], [])).2).length
  · exact nc_snd_lt i _ (mem_of_getD _ k 0 h)
  · rw [List.getD_eq_default _ _ (Nat.le_of_not_lt h)]
    decide

/-- One sibling-connection write pair preserves the invariants. -/
theorem siblingWrites_LInv (ls0 s : List (List SparseVoxelOctreeNode))
    (fc : SparseVoxelOctreeLink) (conn : Nat × Nat × Nat × Nat)
    (hmem : conn ∈ SIBLING_CONNECTIONS) (hI : LInv s) (hE : LenEq ls0 s)
    (hflt : fc.layer_index < ls0.length)
    (hf8 : fc.node_index + 8 ≤ (ls0.getD fc.layer_index []).length) :
    LInv (SparseVoxelOctreeBuilder.siblingWrites fc s conn) ∧
    LenEq ls0 (SparseVoxelOctreeBuilder.siblingWrites fc s conn) := by
  obtain ⟨b1, b2, b3, b4⟩ := sibling_conn_bounds conn hmem
  have h1 : fc.layer_index < s.length := by rw [← hE.1]; exact hflt
  have h2 : fc.node_index + 8 ≤ (s.getD fc.layer_index []).length := by
    rw [← hE.2]; exact hf8
  unfold SparseVoxelOctreeBuilder.siblingWrites
  have hlt1 : fc.node_index + conn.2.2.2 < (s.getD fc.layer_index []).length := by omega
  have step1 := LInv_setNeighbor s fc.layer_index (fc.node_index + conn.2.2.1) conn.1
    (SparseVoxelOctreeLink.new fc.layer_index (fc.node_index + conn.2.2.2) none) hI
    (Nat.le_refl _) ⟨h1, hlt1, rfl⟩
  have h1b : fc.layer_index < (layersModify s fc.layer_index (fc.node_index + conn.2.2.1)
      (fun nd => nd.setNeighbor conn.1
        (some (SparseVoxelOctreeLink.new fc.layer_index (fc.node_index + conn.2.2.2)
          none)))).length := by
    rw [← step1.2.1]; exact h1
  have h2b : fc.node_index + 8 ≤ ((layersModify s fc.layer_index
      (fc.node_index + conn.2.2.1) (fun nd => nd.setNeighbor conn.1
        (some (SparseVoxelOctreeLink.new fc.layer_index (fc.node_index + conn.2.2.2)
          none)))).getD fc.layer_index []).length := by
    rw [← step1.2.2]; exact h2
  have hlt2 : fc.node_index + conn.2.2.1 < ((layersModify s fc.layer_index
      (fc.node_index + conn.2.2.1) (fun nd => nd.setNeighbor conn.1
        (some (SparseVoxelOctreeLink.new fc.layer_index (fc.node_index + conn.2.2.2)
          none)))).getD fc.layer_index []).length := by
    rw [← step1.2.2]; omega
  have step2 := LInv_setNeighbor _ fc.layer_index (fc.node_index + conn.2.2.2) conn.2.1
    (SparseVoxelOctreeLink.new fc.layer_index (fc.node_index + conn.2.2.1) none) step1.1
    (Nat.le_refl _) ⟨h1b, hlt2, rfl⟩
  exact ⟨step2.1, (hE.trans step1.2).trans step2.2⟩

/-- The cross-face writes for one face preserve the invariants (all bounds
are re-derived from the invariants of the current stack). -/
theorem crossWrites_LInv (s : List (List SparseVoxelOctreeNode))
    (x : SparseVoxelOctreeLink) (i : Nat) (hI : LInv s) :
    LInv (SparseVoxelOctreeBuilder.crossWrites x s i) ∧
    LenEq s (SparseVoxelOctreeBuilder.crossWrites x s i) := by
  unfold SparseVoxelOctreeBuilder.crossWrites
  cases hnb : ((s.getD x.layer_index []).getD x.node_index
      defNode).neighbors.getD i none with
  | none => exact ⟨hI, LenEq.refl s⟩
  | some neighbor =>
    cases hofc : ((s.getD x.layer_index []).getD x.node_index defNode).first_child with
    | none => exact ⟨hI, LenEq.refl s⟩
    | some own_first_child =>
      have hN := hI.2.2.2 x.layer_index x.node_index i neighbor hnb
      have hOF := hI.2.1 x.layer_index x.node_index own_first_child hofc
      cases hnfc : ((s.getD neighbor.layer_index []).getD neighbor.node_index
          defNode).first_child with
      | some neighbor_first_child =>
        have hNF := hI.2.1 neighbor.layer_index neighbor.node_index neighbor_first_child hnfc
        simp only [hnfc]
        refine foldl_inv (fun s2 => LInv s2 ∧ LenEq s s2) _ _ _ ?_ ⟨hI, LenEq.refl s⟩
        intro s2 k _ hs2
        have hup : own_first_child.layer_index ≤ neighbor_first_child.layer_index := by
          have e1 := hOF.1
          have e2 := hNF.1
          have e3 := hN.1
          omega
        have hv1 : neighbor_first_child.layer_index < s2.length := by
          rw [← hs2.2.1]
          have := hNF.2.2.2.1
          have := hNF.1
          omega
        have hv2 : neighbor_first_child.node_index +
            (NEIGHBOR_CONNECTIONS.getD i ([], [])).2.getD k 0 <
            (s2.getD neighbor_first_child.layer_index []).length := by
          rw [← hs2.2.2]
          have hb := nc_snd_getD_lt8 i k
          have := hNF.2.2.2.1
          omega
        have step := LInv_setNeighbor s2 own_first_child.layer_index
          (own_first_child.node_index + (NEIGHBOR_CONNECTIONS.getD i ([], [])).1.getD k 0) i
          (SparseVoxelOctreeLink.new neighbor_first_child.layer_index
            (neighbor_first_child.node_index +
              (NEIGHBOR_CONNECTIONS.getD i ([], [])).2.getD k 0) none) hs2.1 hup
          ⟨hv1, hv2, rfl⟩
        exact ⟨step.1, hs2.2.trans step.2⟩
      | none =>
        simp only [hnfc]
        refine foldl_inv (fun s2 => LInv s2 ∧ LenEq s s2) _ _ _ ?_ ⟨hI, LenEq.refl s⟩
        intro s2 off _ hs2
        have hup : own_first_child.layer_index ≤ neighbor.layer_index := by
          have e1 := hOF.1
          have e2 := hN.1
          omega
        have hv1 : neighbor.layer_index < s2.length := by
          rw [← hs2.2.1]; exact hN.2.1
        have hv2 : neighbor.node_index < (s2.getD neighbor.layer_index []).length := by
          rw [← hs2.2.2]; exact hN.2.2.1
        have step := LInv_setNeighbor s2 own_first_child.layer_index
          (own_first_child.node_index + off) i neighbor hs2.1 hup ⟨hv1, hv2, hN.2.2.2⟩
        exact ⟨step.1, hs2.2.trans step.2⟩

/-- One run of the `fill_neighbors` work-list loop preserves the
invariants. -/
theorem fillNeighborsLoop_LInv :
    ∀ (fuel : Nat) (ls : List (List SparseVoxelOctreeNode))
      (stack : List SparseVoxelOctreeLink) (out : List (List SparseVoxelOctreeNode)),
      LInv ls → SparseVoxelOctreeBuilder.fillNeighborsLoop fuel ls stack = some out →
      LInv out := by
  intro fuel
  induction fuel with
  | zero => intro ls stack out _ hrun; cases hrun
  | succ f ih =>
    intro ls stack out hInv hrun
    unfold SparseVoxelOctreeBuilder.fillNeighborsLoop at hrun
    cases stack with
    | nil =>
      cases hrun
      exact hInv
    | cons x rest =>
      simp only at hrun
      cases hfc : ((ls.getD x.layer_index []).getD x.node_index defNode).first_child with
      | none =>
        rw [hfc] at hrun
        exact ih ls rest out hInv hrun
      | some fc =>
        rw [hfc] at hrun
        obtain ⟨hfl, hxl, hxi, hf8, hfs⟩ := hInv.2.1 x.layer_index x.node_index fc hfc
        have hflt : fc.layer_index < ls.length := by omega
        have hsib : LInv (SIBLING_CONNECTIONS.foldl
              (SparseVoxelOctreeBuilder.siblingWrites fc) ls) ∧
            LenEq ls (SIBLING_CONNECTIONS.foldl
              (SparseVoxelOctreeBuilder.siblingWrites fc) ls) := by
          refine foldl_inv (fun s => LInv s ∧ LenEq ls s) _ _ _ ?_ ⟨hInv, LenEq.refl ls⟩
          intro s conn hconn hs
          exact siblingWrites_LInv ls s fc conn hconn hs.1 hs.2 hflt hf8
        have hcross : LInv ((List.range 6).foldl (SparseVoxelOctreeBuilder.crossWrites x)
            (SIBLING_CONNECTIONS.foldl (SparseVoxelOctreeBuilder.siblingWrites fc) ls)) := by
          refine (foldl_inv (fun s => LInv s) _ _ _ ?_ hsib.1)
          intro s k _ hs
          exact (crossWrites_LInv s x k hs).1
        exact ih _ _ out hcross hrun

/-- Elements of `alInsertIfAbsent` come from the original list or are the
inserted pair. -/
theorem alInsertIfAbsent_mem {α : Type} {m : List (UVec3 × α)} {k : UVec3} {v : α}
    {p : UVec3 × α} (h : p ∈ alInsertIfAbsent m k v) : p ∈ m ∨ p = (k, v) := by
  unfold alInsertIfAbsent at h
  split at h
  · exact Or.inl h
  · rcases List.mem_append.mp h with h1 | h1
    · exact Or.inl h1
    · exact Or.inr (List.mem_singleton.mp h1)

/-- Value predicates survive `alModify` when the modification preserves
them. -/
theorem alModify_mem {α : Type} {m : List (UVec3 × α)} {k : UVec3} {f : α → α}
    {p : UVec3 × α} (h : p ∈ alModify m k f) :
    ∃ q ∈ m, p = q ∨ p = (q.1, f q.2) := by
  unfold alModify at h
  obtain ⟨q, hq, hpq⟩ := List.mem_map.mp h
  refine ⟨q, hq, ?_⟩
  by_cases hk : q.1 = k
  · right
    rw [← hpq]
    simp [hk]
  · left
    rw [← hpq]
    simp [hk]

/-- Every layer-0 node of the collect step is a `leaf`-constructed node. -/
theorem collect_layer0_leafShaped (voxels : List IVec3) (origin : IVec3) :
    ∀ nd ∈ (SparseVoxelOctreeBuilder.collectLeafsAndZeroLayerNodes voxels origin).1,
      ∃ k, nd = SparseVoxelOctreeNode.leaf k := by
  have hpass1 : ∀ p ∈ (SparseVoxelOctreeBuilder.collectPassOne voxels origin).2,
      p.2 = SparseVoxelOctreeNode.leaf p.1 := by
    unfold SparseVoxelOctreeBuilder.collectPassOne
    refine foldl_inv (fun ms : List (UVec3 × CompoundNode) ×
        List (UVec3 × SparseVoxelOctreeNode) =>
        ∀ p ∈ ms.2, p.2 = SparseVoxelOctreeNode.leaf p.1) _ _ _
      ?_ (by intro p hp; cases hp)
    intro ms voxel _ hms
    refine foldl_inv (fun ms : List (UVec3 × CompoundNode) ×
        List (UVec3 × SparseVoxelOctreeNode) =>
        ∀ p ∈ ms.2, p.2 = SparseVoxelOctreeNode.leaf p.1) _ _ _
      ?_ hms
    intro ms2 x _ hms2
    refine foldl_inv (fun ms : List (UVec3 × CompoundNode) ×
        List (UVec3 × SparseVoxelOctreeNode) =>
        ∀ p ∈ ms.2, p.2 = SparseVoxelOctreeNode.leaf p.1) _ _ _
      ?_ hms2
    intro ms3 y _ hms3
    refine foldl_inv (fun ms : List (UVec3 × CompoundNode) ×
        List (UVec3 × SparseVoxelOctreeNode) =>
        ∀ p ∈ ms.2, p.2 = SparseVoxelOctreeNode.leaf p.1) _ _ _
      ?_ hms3
    intro ms4 z _ hms4
    intro p hp
    rcases alInsertIfAbsent_mem hp with h1 | h1
    · exact hms4 p h1
    · rw [h1]
  have hpass2 : ∀ p ∈ (SparseVoxelOctreeBuilder.collectPassTwo voxels origin
      (SparseVoxelOctreeBuilder.collectPassOne voxels origin)).2,
      p.2 = SparseVoxelOctreeNode.leaf p.1 := by
    unfold SparseVoxelOctreeBuilder.collectPassTwo
    refine foldl_inv (fun ms : List (UVec3 × CompoundNode) ×
        List (UVec3 × SparseVoxelOctreeNode) =>
        ∀ p ∈ ms.2, p.2 = SparseVoxelOctreeNode.leaf p.1) _ _ _
      ?_ hpass1
    intro ms voxel _ hms p hp
    simp only at hp
    obtain ⟨q, hq, hpq⟩ := alModify_mem hp
    rcases hpq with h1 | h1
    · rw [h1]; exact hms q hq
    · rw [h1]
      have := hms q hq
      rw [this]
      rfl
  intro nd hnd
  unfold SparseVoxelOctreeBuilder.collectLeafsAndZeroLayerNodes at hnd
  simp only at hnd
  have hperm := List.perm_insertionSort
    (fun a b : SparseVoxelOctreeNode =>
      mortonEncodeV a.position ≤ mortonEncodeV b.position)
    (((SparseVoxelOctreeBuilder.collectPassTwo voxels origin
      (SparseVoxelOctreeBuilder.collectPassOne voxels origin)).2).map (fun p => p.2))
  have hnd2 := hperm.mem_iff.mp hnd
  obtain ⟨p, hp, hpe⟩ := List.mem_map.mp hnd2
  exact ⟨p.1, hpe ▸ hpass2 p hp⟩

/-- The one-layer stack produced by the collect step satisfies the
invariants. -/
theorem collect_LInv (voxels : List IVec3) (origin : IVec3) :
    LInv [(SparseVoxelOctreeBuilder.collectLeafsAndZeroLayerNodes voxels origin).1] := by
  set lz := (SparseVoxelOctreeBuilder.collectLeafsAndZeroLayerNodes voxels origin).1 with hlz
  have hshape := collect_layer0_leafShaped voxels origin
  rw [← hlz] at hshape
  have hmem : ∀ i, i < lz.length → ∃ k, (lz.getD i defNode) = SparseVoxelOctreeNode.leaf k :=
    fun i hi => hshape _ (mem_of_getD lz i defNode hi)
  refine ⟨?_, ?_, ?_, ?_⟩
  · intro l hl i hi
    have hl0 : l = 0 := by
      have h1 : l < 1 := by simpa using hl
      omega
    subst hl0
    have hi2 : i < lz.length := by simpa using hi
    obtain ⟨k, hk⟩ := hmem i hi2
    show (getN [lz] 0 i).size = 4 * 2 ^ 0
    rw [show getN [lz] 0 i = lz.getD i defNode from rfl, hk]
    rfl
  · intro l i fc hfc
    cases l with
    | zero =>
      by_cases hi2 : i < lz.length
      · obtain ⟨k, hk⟩ := hmem i hi2
        rw [show getN [lz] 0 i = lz.getD i defNode from rfl, hk] at hfc
        cases hfc
      · rw [show getN [lz] 0 i = lz.getD i defNode from rfl,
          List.getD_eq_default _ _ (Nat.le_of_not_lt hi2)] at hfc
        cases hfc
    | succ l =>
      rw [show getN [lz] (l + 1) i = defNode from rfl] at hfc
      cases hfc
  · intro i hi
    have hi2 : i < lz.length := by simpa using hi
    obtain ⟨k, hk⟩ := hmem i hi2
    constructor
    · show (getN [lz] 0 i).first_child = none
      rw [show getN [lz] 0 i = lz.getD i defNode from rfl, hk]
      rfl
    · show (getN [lz] 0 i).is_leaf = true
      rw [show getN [lz] 0 i = lz.getD i defNode from rfl, hk]
      rfl
  · intro l i j tgt htgt
    cases l with
    | zero =>
      by_cases hi2 : i < lz.length
      · obtain ⟨k, hk⟩ := hmem i hi2
        rw [show getN [lz] 0 i = lz.getD i defNode from rfl, hk] at htgt
        have hrep : (SparseVoxelOctreeNode.leaf k).neighbors.getD j none = none :=
          defNode_neighbors_getD j
        rw [hrep] at htgt
        cases htgt
      · rw [show getN [lz] 0 i = lz.getD i defNode from rfl,
          List.getD_eq_default _ _ (Nat.le_of_not_lt hi2), defNode_neighbors_getD] at htgt
        cases htgt
    | succ l =>
      rw [show getN [lz] (l + 1) i = defNode from rfl, defNode_neighbors_getD] at htgt
      cases htgt

/-- C6 (counterexample): `get_origin_and_size` performs no clamping to 4 —
for coinciding corners it returns size 1 — and building with no voxels and
no bounds yields a single empty layer, not a sole root layer containing
one size-4 node. -/
theorem c6_counterexample :
    SparseVoxelOctreeBuilder.getOriginAndSize ⟨0, 0, 0⟩ ⟨0, 0, 0⟩ = (⟨0, 0, 0⟩, 1) ∧
    ¬ (4 ≤ 1) ∧
    octreeEmpty.map (fun t => t.layers.map List.length) = some [0] :=
  ⟨by decide, by decide, by decide⟩

/-! ### Invariant preservation through the layer-building pipeline -/

/-- Membership in `List.insertIdx`: the element is the inserted one or was
already present. -/
theorem mem_insertIdxOr {α : Type} {x a : α} :
    ∀ {n : Nat} {l : List α}, x ∈ List.insertIdx n a l → x = a ∨ x ∈ l := by
  intro n l
  induction l generalizing n with
  | nil =>
    cases n with
    | zero =>
      intro h
      rw [List.insertIdx_zero] at h
      exact Or.inl (List.mem_singleton.mp h)
    | succ n =>
      intro h
      rw [List.insertIdx_succ_nil] at h
      cases h
  | cons b bs ih =>
    cases n with
    | zero =>
      intro h
      rw [List.insertIdx_zero] at h
      rcases List.mem_cons.mp h with h1 | h1
      · exact Or.inl h1
      · exact Or.inr h1
    | succ n =>
      intro h
      rw [List.insertIdx_succ_cons] at h
      rcases List.mem_cons.mp h with h1 | h1
      · exact Or.inr (h1 ▸ List.mem_cons_self b bs)
      · rcases ih h1 with h2 | h2
        · exact Or.inl h2
        · exact Or.inr (List.mem_cons_of_mem b h2)

/-- A successful validation forces the layer length to be a multiple of 8. -/
theorem validate_length_mod {nodes : List SparseVoxelOctreeNode} {sz : Nat}
    (h : SparseVoxelOctreeBuilder.validateAllChildrenPresent nodes sz = true) :
    nodes.length % 8 = 0 := by
  unfold SparseVoxelOctreeBuilder.validateAllChildrenPresent at h
  by_cases hm : nodes.length % 8 = 0
  · exact hm
  · rw [if_pos hm] at h
    cases h

/-- Membership through a conditional insertion. -/
theorem mem_if_insertIdx {α : Type} {x a : α} {l : List α} {n : Nat} {c : Prop}
    [Decidable c] (h : x ∈ if c then List.insertIdx n a l else l) : x = a ∨ x ∈ l := by
  split at h
  · exact mem_insertIdxOr h
  · exact Or.inr h

/-- `fillNodeIfItDoesntExist` only adds freshly constructed interior nodes
of the given size. -/
theorem fillNode_mem {layer : List SparseVoxelOctreeNode} {idx : Nat} {fp : UVec3}
    {sz : Nat} {off : UVec3} {x : SparseVoxelOctreeNode}
    (h : x ∈ SparseVoxelOctreeBuilder.fillNodeIfItDoesntExist layer idx fp sz off) :
    x ∈ layer ∨ ∃ p, x = SparseVoxelOctreeNode.node p sz := by
  unfold SparseVoxelOctreeBuilder.fillNodeIfItDoesntExist at h
  simp only at h
  rcases mem_if_insertIdx h with h1 | h1
  · exact Or.inr ⟨_, h1⟩
  · exact Or.inl h1

/-- One padding slot only adds freshly constructed interior nodes. -/
theorem padFillStep_mem {fp : UVec3} {sz i : Nat} {lay : List SparseVoxelOctreeNode}
    {y : Nat} {x : SparseVoxelOctreeNode}
    (h : x ∈ SparseVoxelOctreeBuilder.padFillStep fp sz i lay y) :
    x ∈ lay ∨ ∃ p, x = SparseVoxelOctreeNode.node p sz := by
  unfold SparseVoxelOctreeBuilder.padFillStep at h
  exact fillNode_mem h

/-- The padding loop only adds freshly constructed interior nodes of the
given size. -/
theorem padLayerLoop_mem {sz : Nat} :
    ∀ (fuel i : Nat) (layer out : List SparseVoxelOctreeNode),
      SparseVoxelOctreeBuilder.padLayerLoop sz fuel i layer = some out →
      ∀ x ∈ out, x ∈ layer ∨ ∃ p, x = SparseVoxelOctreeNode.node p sz := by
  intro fuel
  induction fuel with
  | zero => intro i layer out h; cases h
  | succ f ih =>
    intro i layer out h
    rw [SparseVoxelOctreeBuilder.padLayerLoop] at h
    have hfill : ∀ (fp : UVec3) (x : SparseVoxelOctreeNode),
        x ∈ (List.range 8).foldl (SparseVoxelOctreeBuilder.padFillStep fp sz i) layer →
        x ∈ layer ∨ ∃ p, x = SparseVoxelOctreeNode.node p sz := by
      intro fp
      have := foldl_inv (fun lay => ∀ x ∈ lay,
          x ∈ layer ∨ ∃ p, x = SparseVoxelOctreeNode.node p sz)
        (List.range 8) (SparseVoxelOctreeBuilder.padFillStep fp sz i) layer
        ?_ (fun x hx => Or.inl hx)
      · exact this
      · intro lay y _ hlay x hx
        rcases padFillStep_mem hx with h1 | h1
        · exact hlay x h1
        · exact Or.inr h1
    revert h
    generalize (if layer.length ≤ i then UVec3.zero
      else ((layer.getD i defNode).position / (sz * 2)) * (sz * 2)) = fp
    generalize hF2 : (List.range 8).foldl
      (SparseVoxelOctreeBuilder.padFillStep fp sz i) layer = lay2
    intro h
    have hf2 : ∀ x ∈ lay2, x ∈ layer ∨ ∃ p, x = SparseVoxelOctreeNode.node p sz := by
      rw [← hF2]
      exact hfill fp
    split at h
    · cases h
      exact hf2
    · intro x hx
      rcases ih (i + 8) lay2 out h x hx with h1 | h1
      · exact hf2 x h1
      · exact Or.inr h1

/-- `getD` through an appended singleton layer. -/
theorem getD_append_single (ls : List (List SparseVoxelOctreeNode))
    (layer : List SparseVoxelOctreeNode) (l : Nat) :
    (ls ++ [layer]).getD l [] =
      if l < ls.length then ls.getD l [] else if l = ls.length then layer else [] := by
  by_cases h1 : l < ls.length
  · rw [if_pos h1]
    exact List.getD_append ls [layer] [] l h1
  · rw [if_neg h1]
    by_cases h2 : l = ls.length
    · subst h2
      rw [if_pos rfl, List.getD_append_right _ _ _ _ (Nat.le_refl _), Nat.sub_self]
      rfl
    · rw [if_neg h2, List.getD_append_right _ _ _ _ (Nat.le_of_not_lt h1)]
      have hge : 1 ≤ l - ls.length := by omega
      exact List.getD_eq_default _ _ (by simpa using hge)

/-- `getN` through an appended singleton layer. -/
theorem getN_append (ls : List (List SparseVoxelOctreeNode))
    (layer : List SparseVoxelOctreeNode) (l i : Nat) :
    getN (ls ++ [layer]) l i =
      if l < ls.length then getN ls l i
      else if l = ls.length then layer.getD i defNode else defNode := by
  unfold getN
  rw [getD_append_single]
  by_cases h1 : l < ls.length
  · rw [if_pos h1, if_pos h1]
  · rw [if_neg h1, if_neg h1]
    by_cases h2 : l = ls.length
    · rw [if_pos h2, if_pos h2]
    · rw [if_neg h2, if_neg h2]
      rfl

/-- Reading any slot of an all-`none` replicate gives `none`. -/
theorem getD_replicate_none {α : Type} (n j : Nat) :
    (List.replicate n (none : Option α)).getD j none = none := by
  by_cases h : j < n
  · rw [List.getD_eq_getElem _ _ (by simpa using h), List.getElem_replicate]
  · exact List.getD_eq_default _ _ (by simpa using Nat.le_of_not_lt h)

/-- Shape of the nodes produced by `createNextLayer`: the node size doubles,
neighbor slots start out empty, and `first_child` is either absent (padding
nodes) or an octet-aligned link into the previous top layer. -/
theorem createNextLayer_shape {ls : List (List SparseVoxelOctreeNode)}
    {cur size next : Nat} {layer : List SparseVoxelOctreeNode}
    (h : SparseVoxelOctreeBuilder.createNextLayer ls cur size = some (next, layer)) :
    next = cur * 2 ∧
    ∀ nd ∈ layer, nd.size = cur * 2 ∧
      nd.neighbors = List.replicate 6 none ∧
      (nd.first_child = none ∨ ∃ ii, nd.first_child =
        some (SparseVoxelOctreeLink.new (ls.length - 1) ii none) ∧
        ii + 8 ≤ (ls.getD (ls.length - 1) []).length) := by
  unfold SparseVoxelOctreeBuilder.createNextLayer at h
  simp only at h
  cases hlast : ls.getLast? with
  | none =>
    rw [hlast] at h
    cases h
  | some last =>
    rw [hlast] at h
    simp only at h
    cases hv : SparseVoxelOctreeBuilder.validateAllChildrenPresent last cur with
    | false =>
      rw [hv, if_pos (show (!false) = true from rfl)] at h
      cases h
    | true =>
      rw [hv, if_neg (show ¬ (!true) = true from by decide)] at h
      have hmod : last.length % 8 = 0 := validate_length_mod hv
      have hgetlast : ls.getD (ls.length - 1) [] = last := by
        rw [List.getLast?_eq_getElem?] at hlast
        rw [List.getD_eq_getElem?_getD, hlast]
        rfl
      set base := (List.range (last.length / 8)).map (fun b =>
        { SparseVoxelOctreeNode.node (last.getD (8 * b) defNode).position (cur * 2) with
          first_child := some (SparseVoxelOctreeLink.new (ls.length - 1) (8 * b) none) })
        with hbdef
      have hbase : ∀ nd ∈ base,
          nd.size = cur * 2 ∧
          nd.neighbors = List.replicate 6 none ∧
          (nd.first_child = none ∨ ∃ ii, nd.first_child =
            some (SparseVoxelOctreeLink.new (ls.length - 1) ii none) ∧
            ii + 8 ≤ (ls.getD (ls.length - 1) []).length) := by
        rw [hbdef]
        intro nd hnd
        obtain ⟨b, hb, hbe⟩ := List.mem_map.mp hnd
        have hblt : b < last.length / 8 := List.mem_range.mp hb
        subst hbe
        refine ⟨rfl, rfl, Or.inr ⟨8 * b, rfl, ?_⟩⟩
        rw [hgetlast]
        omega
      split at h
      · cases hp : SparseVoxelOctreeBuilder.padLayerLoop (cur * 2) (base.length + 2) 0
            base with
        | none =>
          rw [hp] at h
          cases h
        | some padded =>
          rw [hp] at h
          rw [show Option.map (fun l => (cur * 2, l)) (some padded) =
            some (cur * 2, padded) from rfl] at h
          injection h with h2
          injection h2 with h3 h4
          subst h4
          refine ⟨h3.symm, ?_⟩
          intro nd hnd
          rcases padLayerLoop_mem _ _ _ _ hp nd hnd with h1 | h1
          · exact hbase nd h1
          · obtain ⟨p, hpe⟩ := h1
            subst hpe
            exact ⟨rfl, rfl, Or.inl rfl⟩
      · injection h with h2
        injection h2 with h3 h4
        subst h4
        exact ⟨h3.symm, hbase⟩

/-- Appending a next layer of doubled-size nodes whose child links target
full octets of the previous top layer preserves the invariants. -/
theorem LInv_append {ls : List (List SparseVoxelOctreeNode)}
    {layer : List SparseVoxelOctreeNode} (hInv : LInv ls) (hne : ls ≠ [])
    (hsh : ∀ nd ∈ layer, nd.size = 4 * 2 ^ ls.length ∧
      nd.neighbors = List.replicate 6 none ∧
      (nd.first_child = none ∨ ∃ ii, nd.first_child =
        some (SparseVoxelOctreeLink.new (ls.length - 1) ii none) ∧
        ii + 8 ≤ (ls.getD (ls.length - 1) []).length)) :
    LInv (ls ++ [layer]) := by
  obtain ⟨hS, hF, hZ, hN⟩ := hInv
  have hlen : (ls ++ [layer]).length = ls.length + 1 := by simp
  have hpos : 0 < ls.length := List.length_pos.mpr hne
  refine ⟨?_, ?_, ?_, ?_⟩
  · intro l hl i hi
    rw [hlen] at hl
    show (getN (ls ++ [layer]) l i).size = 4 * 2 ^ l
    rw [getN_append]
    by_cases h1 : l < ls.length
    · rw [if_pos h1]
      rw [getD_append_single, if_pos h1] at hi
      exact hS l h1 i hi
    · have h2 : l = ls.length := by omega
      rw [if_neg h1, if_pos h2]
      subst h2
      rw [getD_append_single, if_neg h1, if_pos rfl] at hi
      exact (hsh _ (mem_of_getD layer i defNode hi)).1
  · intro l i fc hfc
    rw [getN_append] at hfc
    by_cases h1 : l < ls.length
    · rw [if_pos h1] at hfc
      obtain ⟨ha, hb, hc, hd, he⟩ := hF l i fc hfc
      have hflt : fc.layer_index < ls.length := by omega
      refine ⟨ha, by rw [hlen]; omega, ?_, ?_, he⟩
      · rw [getD_append_single, if_pos h1]
        exact hc
      · rw [getD_append_single, if_pos hflt]
        exact hd
    · rw [if_neg h1] at hfc
      by_cases h2 : l = ls.length
      · rw [if_pos h2] at hfc
        by_cases hi : i < layer.length
        · rcases (hsh _ (mem_of_getD layer i defNode hi)).2.2 with hnone | ⟨ii, hii, hile⟩
          · rw [hnone] at hfc
            cases hfc
          · rw [hii] at hfc
            cases hfc
            have hll : ls.length - 1 < ls.length := by omega
            refine ⟨?_, by rw [hlen]; omega, ?_, ?_, rfl⟩
            · show ls.length - 1 + 1 = l
              omega
            · rw [getD_append_single, if_neg h1, if_pos h2]
              exact hi
            · show ii + 8 ≤ ((ls ++ [layer]).getD (ls.length - 1) []).length
              rw [getD_append_single, if_pos hll]
              exact hile
        · rw [List.getD_eq_default _ _ (Nat.le_of_not_lt hi)] at hfc
          cases hfc
      · rw [if_neg h2] at hfc
        cases hfc
  · intro i hi
    rw [getD_append_single, if_pos hpos] at hi
    obtain ⟨h1, h2⟩ := hZ i hi
    constructor
    · show (getN (ls ++ [layer]) 0 i).first_child = none
      rw [getN_append, if_pos hpos]
      exact h1
    · show (getN (ls ++ [layer]) 0 i).is_leaf = true
      rw [getN_append, if_pos hpos]
      exact h2
  · intro l i j tgt htgt
    rw [getN_append] at htgt
    by_cases h1 : l < ls.length
    · rw [if_pos h1] at htgt
      obtain ⟨ha, hb, hc, hd⟩ := hN l i j tgt htgt
      refine ⟨ha, by rw [hlen]; omega, ?_, hd⟩
      rw [getD_append_single, if_pos hb]
      exact hc
    · rw [if_neg h1] at htgt
      by_cases h2 : l = ls.length
      · rw [if_pos h2] at htgt
        by_cases hi : i < layer.length
        · rw [(hsh _ (mem_of_getD layer i defNode hi)).2.1, getD_replicate_none] at htgt
          cases htgt
        · rw [List.getD_eq_default _ _ (Nat.le_of_not_lt hi),
            defNode_neighbors_getD] at htgt
          cases htgt
      · rw [if_neg h2, defNode_neighbors_getD] at htgt
        cases htgt

/-- The layer-building loop preserves the invariants; the running node size
stays locked to `4 * 2 ^ (index of the top layer)`. -/
theorem buildLayersLoop_LInv :
    ∀ (fuel : Nat) (ls : List (List SparseVoxelOctreeNode)) (cur size : Nat)
      (out : List (List SparseVoxelOctreeNode)),
      LInv ls → ls ≠ [] → cur = 4 * 2 ^ (ls.length - 1) →
      SparseVoxelOctreeBuilder.buildLayersLoop fuel ls cur size = some out →
      LInv out ∧ out ≠ [] := by
  intro fuel
  induction fuel with
  | zero => intro ls cur size out _ _ _ h; cases h
  | succ f ih =>
    intro ls cur size out hInv hne hcur h
    rw [SparseVoxelOctreeBuilder.buildLayersLoop] at h
    split at h
    · cases hc : SparseVoxelOctreeBuilder.createNextLayer ls cur size with
      | none =>
        rw [hc] at h
        cases h
      | some p =>
        obtain ⟨next, layer⟩ := p
        simp only [hc] at h
        obtain ⟨hnext, hsh⟩ := createNextLayer_shape hc
        have hpos : 0 < ls.length := List.length_pos.mpr hne
        have hpow : 4 * 2 ^ (ls.length - 1) * 2 = 4 * 2 ^ ls.length := by
          have h2 : 2 ^ (ls.length - 1) * 2 = 2 ^ ls.length := by
            rw [← Nat.pow_succ]
            congr 1
            omega
          rw [Nat.mul_assoc, h2]
        have happ : LInv (ls ++ [layer]) := by
          refine LInv_append hInv hne ?_
          intro nd hnd
          obtain ⟨hsz, hnb, hfc⟩ := hsh nd hnd
          refine ⟨?_, hnb, hfc⟩
          rw [hsz, hcur]
          exact hpow
        refine ih (ls ++ [layer]) next size out happ (by simp) ?_ h
        have hlen2 : (ls ++ [layer]).length - 1 = ls.length := by simp
        rw [hnext, hcur, hpow, hlen2]
    · cases h
      exact ⟨hInv, hne⟩

/-- A per-node update that does not touch the size, child link, leaf flag
or neighbors preserves the invariants. -/
theorem LInv_layersModify_preserve (ls : List (List SparseVoxelOctreeNode)) (L I : Nat)
    (fmod : SparseVoxelOctreeNode → SparseVoxelOctreeNode)
    (hsz : ∀ nd, (fmod nd).size = nd.size)
    (hfc : ∀ nd, (fmod nd).first_child = nd.first_child)
    (hlf : ∀ nd, (fmod nd).is_leaf = nd.is_leaf)
    (hnb : ∀ nd, (fmod nd).neighbors = nd.neighbors)
    (hInv : LInv ls) : LInv (layersModify ls L I fmod) := by
  obtain ⟨hS, hF, hZ, hN⟩ := hInv
  have hlen : ∀ j, ((layersModify ls L I fmod).getD j []).length = (ls.getD j []).length :=
    fun j => layersModify_length ls L I _ j
  have hlenT : (layersModify ls L I fmod).length = ls.length := listModify_length _ _ _
  refine ⟨?_, ?_, ?_, ?_⟩
  · intro l hl i hi
    show (getN _ l i).size = 4 * 2 ^ l
    rw [getN_layersModify]
    split
    · rename_i hcase
      obtain ⟨rfl, rfl, hL, hI⟩ := hcase
      rw [hsz]
      exact hS l hL i hI
    · exact hS l (by rwa [hlenT] at hl) i (by rwa [hlen] at hi)
  · intro l i fc hfc2
    rw [getN_layersModify] at hfc2
    have hfc3 : (getN ls l i).first_child = some fc := by
      revert hfc2
      split
      · rename_i hcase
        obtain ⟨rfl, rfl, hL, hI⟩ := hcase
        intro hfc2
        rw [hfc] at hfc2
        exact hfc2
      · exact id
    obtain ⟨h1, h2, h3, h4, h5⟩ := hF l i fc hfc3
    exact ⟨h1, by rwa [hlenT], by rwa [hlen], by rwa [hlen], h5⟩
  · intro i hi
    rw [hlen] at hi
    obtain ⟨h1, h2⟩ := hZ i hi
    constructor
    · show (getN _ 0 i).first_child = none
      rw [getN_layersModify]
      split
      · rename_i hcase
        obtain ⟨rfl, rfl, hL, hI⟩ := hcase
        rw [hfc]
        exact h1
      · exact h1
    · show (getN _ 0 i).is_leaf = true
      rw [getN_layersModify]
      split
      · rename_i hcase
        obtain ⟨rfl, rfl, hL, hI⟩ := hcase
        rw [hlf]
        exact h2
      · exact h2
  · intro l i j t ht
    rw [getN_layersModify] at ht
    have ht2 : (getN ls l i).neighbors.getD j none = some t := by
      revert ht
      split
      · rename_i hcase
        obtain ⟨rfl, rfl, hL, hI⟩ := hcase
        intro ht
        rw [hnb] at ht
        exact ht
      · exact id
    obtain ⟨h1, h2, h3, h4⟩ := hN l i j t ht2
    exact ⟨h1, by rwa [hlenT], by rwa [hlen], h4⟩

/-- `fillParents` only touches `parent` fields, so the invariants carry
through. -/
theorem fillParents_LInv {ls : List (List SparseVoxelOctreeNode)} (hInv : LInv ls) :
    LInv (SparseVoxelOctreeBuilder.fillParents ls) := by
  unfold SparseVoxelOctreeBuilder.fillParents
  refine foldl_inv LInv _ _ _ ?_ hInv
  intro s i _ hs
  refine foldl_inv LInv _ _ _ ?_ hs
  intro s2 y _ hs2
  cases hm : ((s2.getD i []).getD y defNode).first_child with
  | none =>
    simp only [hm]
    exact hs2
  | some first_child =>
    simp only [hm]
    refine foldl_inv LInv _ _ _ ?_ hs2
    intro s3 z _ hs3
    exact LInv_layersModify_preserve s3 _ _ _ (fun nd => rfl) (fun nd => rfl)
      (fun nd => rfl) (fun nd => rfl) hs3

/-- `fillNeighbors` preserves the invariants. -/
theorem fillNeighbors_LInv {ls out : List (List SparseVoxelOctreeNode)} (hInv : LInv ls)
    (h : SparseVoxelOctreeBuilder.fillNeighbors ls = some out) : LInv out := by
  unfold SparseVoxelOctreeBuilder.fillNeighbors at h
  split at h
  · cases h
    exact hInv
  · split at h
    · cases h
      exact hInv
    · exact fillNeighborsLoop_LInv _ _ _ _ hInv h

/-- Every octree actually produced by `build` satisfies the four layer
invariants. -/
theorem build_LInv {b : SparseVoxelOctreeBuilder} {t : SparseVoxelOctree}
    (h : b.build = some t) : LInv t.layers := by
  unfold SparseVoxelOctreeBuilder.build at h
  simp only at h
  set voxels := b.meshes.foldl (fun acc m => acc ++ m.voxelsOut) [] with hvox
  set mm := SparseVoxelOctreeBuilder.getMinMax voxels with hmm
  set os := SparseVoxelOctreeBuilder.getOriginAndSize (b.min.cmin mm.1) (b.max.cmax mm.2)
    with hos
  set lz := SparseVoxelOctreeBuilder.collectLeafsAndZeroLayerNodes voxels os.1 with hlzp
  cases hb : SparseVoxelOctreeBuilder.buildLayersLoop 64 [lz.1] 4 os.2 with
  | none =>
    rw [hb] at h
    cases h
  | some layers =>
    simp only [hb] at h
    cases hn : SparseVoxelOctreeBuilder.fillNeighbors
        (SparseVoxelOctreeBuilder.fillParents layers) with
    | none =>
      rw [hn] at h
      cases h
    | some layers2 =>
      simp only [hn] at h
      cases h
      have hcol : LInv [lz.1] := by
        rw [hlzp]
        exact collect_LInv voxels os.1
      have hloop := buildLayersLoop_LInv 64 [lz.1] 4 os.2 layers hcol (by simp) (by simp) hb
      exact fillNeighbors_LInv (fillParents_LInv hloop.1) hn

/-- C2: on every octree the builder produces, every neighbor link stored in
a node's `neighbors` array names an existing node in the same or a coarser
layer, whose size is therefore greater than or equal to the node's own
size. -/
theorem c2_neighbor_size_monotone (b : SparseVoxelOctreeBuilder) (t : SparseVoxelOctree)
    (hbuild : b.build = some t) (l i j : Nat) (tgt : SparseVoxelOctreeLink)
    (hl : l < t.layers.length) (hi : i < (t.layers.getD l []).length)
    (hj : (t.getNode l i).neighbors.getD j none = some tgt) :
    l ≤ tgt.layer_index ∧
    tgt.layer_index < t.layers.length ∧
    tgt.node_index < (t.layers.getD tgt.layer_index []).length ∧
    (t.getNode l i).size ≤ (t.getNode tgt.layer_index tgt.node_index).size := by
  obtain ⟨hS, _, _, hN⟩ := build_LInv hbuild
  have hj2 : (getN t.layers l i).neighbors.getD j none = some tgt := hj
  obtain ⟨h1, h2, h3, _⟩ := hN l i j tgt hj2
  refine ⟨h1, h2, h3, ?_⟩
  have hsrc : (getN t.layers l i).size = 4 * 2 ^ l := hS l hl i hi
  have htgt : (getN t.layers tgt.layer_index tgt.node_index).size =
      4 * 2 ^ tgt.layer_index := hS tgt.layer_index h2 tgt.node_index h3
  show (getN t.layers l i).size ≤ (getN t.layers tgt.layer_index tgt.node_index).size
  rw [hsrc, htgt]
  have hpow := Nat.pow_le_pow_right (show 0 < 2 by norm_num) h1
  omega

/-- Closed instance of C2 on the build of `builderA`: node `(0,0)` records
the neighbor `(0,1)`, which exists in the same layer and is at least as
large. -/
theorem c2_witness :
    0 ≤ (SparseVoxelOctreeLink.new 0 1 none).layer_index ∧
    (SparseVoxelOctreeLink.new 0 1 none).layer_index < octreeAval.layers.length ∧
    (SparseVoxelOctreeLink.new 0 1 none).node_index <
      (octreeAval.layers.getD (SparseVoxelOctreeLink.new 0 1 none).layer_index []).length ∧
    (octreeAval.getNode 0 0).size ≤
      (octreeAval.getNode (SparseVoxelOctreeLink.new 0 1 none).layer_index
        (SparseVoxelOctreeLink.new 0 1 none).node_index).size :=
  c2_neighbor_size_monotone builderA octreeAval (by decide) 0 0 0
    (SparseVoxelOctreeLink.new 0 1 none) (by decide) (by decide) (by decide)

/-! ### Termination of the successor expansion -/

/-- Work-list invariant of `expandToNeighboringChildrenLoop`: every open
link names an existing node that has a child. -/
def ExpandInv (t : SparseVoxelOctree) (opn : List SparseVoxelOctreeLink) : Prop :=
  ∀ x ∈ opn, x.layer_index < t.layers.length ∧
    x.node_index < (t.layers.getD x.layer_index []).length ∧
    (t.nodeAt x).first_child.isSome = true

/-- Termination measure of the expansion work list. -/
def stackMeasure (opn : List SparseVoxelOctreeLink) : Nat :=
  (opn.map (fun x => 5 ^ x.layer_index)).sum

/-- One expansion step preserves the work-list invariant and adds at most
one open link at the child layer. -/
theorem expandChildStep_inv (t : SparseVoxelOctree) (nbi : Nat)
    (fc : SparseVoxelOctreeLink)
    (hfcl : fc.layer_index < t.layers.length)
    (hfc8 : fc.node_index + 8 ≤ (t.layers.getD fc.layer_index []).length)
    (off : Nat) (hoff : off < 8)
    (st : List SparseVoxelOctreeLink × List SparseVoxelOctreeLink)
    (hInv : ExpandInv t st.1) :
    ExpandInv t ((t.expandChildStep nbi fc st off).1) ∧
    stackMeasure ((t.expandChildStep nbi fc st off).1) ≤
      stackMeasure st.1 + 5 ^ fc.layer_index := by
  unfold SparseVoxelOctree.expandChildStep
  simp only
  by_cases h1 : (t.nodeAt (SparseVoxelOctreeLink.new fc.layer_index
      (fc.node_index + off) none)).first_child.isSome = true
  · rw [if_pos h1]
    constructor
    · intro x hx
      rcases List.mem_cons.mp hx with h2 | h2
      · subst h2
        have hnd : fc.node_index + off < (t.layers.getD fc.layer_index []).length := by
          omega
        exact ⟨hfcl, hnd, h1⟩
      · exact hInv x h2
    · show stackMeasure (SparseVoxelOctreeLink.new fc.layer_index
        (fc.node_index + off) none :: st.1) ≤ stackMeasure st.1 + 5 ^ fc.layer_index
      have hcons : stackMeasure (SparseVoxelOctreeLink.new fc.layer_index
          (fc.node_index + off) none :: st.1) =
          5 ^ fc.layer_index + stackMeasure st.1 := by
        simp [stackMeasure, SparseVoxelOctreeLink.new]
      rw [hcons]
      omega
  · rw [if_neg h1]
    by_cases h2 : (t.nodeAt (SparseVoxelOctreeLink.new fc.layer_index
        (fc.node_index + off) none)).is_leaf = true
    · rw [if_pos h2]
      exact ⟨hInv, Nat.le_add_right _ _⟩
    · rw [if_neg h2]
      exact ⟨hInv, Nat.le_add_right _ _⟩

/-- The per-face expansion fold preserves the invariant and grows the
measure by at most one child-layer term per listed offset. -/
theorem expandFold_inv (t : SparseVoxelOctree) (nbi : Nat) (fc : SparseVoxelOctreeLink)
    (hfcl : fc.layer_index < t.layers.length)
    (hfc8 : fc.node_index + 8 ≤ (t.layers.getD fc.layer_index []).length) :
    ∀ (l : List Nat), (∀ off ∈ l, off < 8) →
      ∀ st : List SparseVoxelOctreeLink × List SparseVoxelOctreeLink, ExpandInv t st.1 →
      ExpandInv t ((l.foldl (t.expandChildStep nbi fc) st).1) ∧
      stackMeasure ((l.foldl (t.expandChildStep nbi fc) st).1) ≤
        stackMeasure st.1 + l.length * 5 ^ fc.layer_index := by
  intro l
  induction l with
  | nil =>
    intro _ st hst
    exact ⟨hst, by simp⟩
  | cons off rest ih =>
    intro hofflt st hst
    have hstep := expandChildStep_inv t nbi fc hfcl hfc8 off
      (hofflt off (List.mem_cons_self off rest)) st hst
    have hrest := ih (fun o ho => hofflt o (List.mem_cons_of_mem off ho))
      (t.expandChildStep nbi fc st off) hstep.1
    rw [List.foldl_cons]
    refine ⟨hrest.1, le_trans hrest.2 (le_trans (Nat.add_le_add_right hstep.2 _)
      (le_of_eq ?_))⟩
    rw [List.length_cons]
    ring

/-- With enough fuel (more than the current measure) the expansion loop
always answers. -/
theorem expandLoop_isSome (t : SparseVoxelOctree) (hF : FCInv t.layers) (nbi : Nat) :
    ∀ (fuel : Nat) (opn cls : List SparseVoxelOctreeLink),
      ExpandInv t opn → stackMeasure opn < fuel →
      (t.expandToNeighboringChildrenLoop nbi fuel opn cls).isSome = true := by
  intro fuel
  induction fuel with
  | zero => intro opn cls _ hm; exact absurd hm (Nat.not_lt_zero _)
  | succ f ih =>
    intro opn cls hInv hm
    cases opn with
    | nil => rfl
    | cons x rest =>
      unfold SparseVoxelOctree.expandToNeighboringChildrenLoop
      simp only
      obtain ⟨hxl, hxi, hxs⟩ := hInv x (List.mem_cons_self x rest)
      cases hfc : (t.nodeAt x).first_child with
      | none =>
        rw [hfc] at hxs
        simp at hxs
      | some fc =>
        simp only [hfc]
        have hgfc : (getN t.layers x.layer_index x.node_index).first_child = some fc := hfc
        obtain ⟨hl1, hl2, hl3, hl4, hl5⟩ := hF x.layer_index x.node_index fc hgfc
        have hfolds := expandFold_inv t nbi fc (by omega) hl4
          ((NEIGHBOR_CONNECTIONS.getD nbi ([], [])).2.take 4)
          (fun o ho => nc_snd_lt nbi o (List.mem_of_mem_take ho))
          (rest, cls) (fun y hy => hInv y (List.mem_cons_of_mem x hy))
        apply ih _ _ hfolds.1
        have hb2 : stackMeasure ((((NEIGHBOR_CONNECTIONS.getD nbi ([], [])).2.take 4).foldl
            (t.expandChildStep nbi fc) (rest, cls)).1) ≤
            stackMeasure rest +
            ((NEIGHBOR_CONNECTIONS.getD nbi ([], [])).2.take 4).length *
              5 ^ fc.layer_index := hfolds.2
        have hlen4 : ((NEIGHBOR_CONNECTIONS.getD nbi ([], [])).2.take 4).length ≤ 4 := by
          simp
        have hmul : ((NEIGHBOR_CONNECTIONS.getD nbi ([], [])).2.take 4).length *
            5 ^ fc.layer_index ≤ 4 * 5 ^ fc.layer_index :=
          Nat.mul_le_mul_right _ hlen4
        have hmc : stackMeasure (x :: rest) = 5 ^ x.layer_index + stackMeasure rest := by
          simp [stackMeasure]
        have h5 : (5 : Nat) ^ x.layer_index = 5 ^ fc.layer_index * 5 := by
          rw [← hl1, Nat.pow_succ]
        have hm2 : 5 ^ fc.layer_index * 5 + stackMeasure rest < f + 1 := by
          rw [← h5, ← hmc]
          exact hm
        have hA : 0 < 5 ^ fc.layer_index := Nat.pos_pow_of_pos _ (by norm_num)
        omega

/-- On built octrees, `expand_to_neighboring_children` of an existing node
with a child always answers. -/
theorem expand_isSome (t : SparseVoxelOctree) (hF : FCInv t.layers) (nbi : Nat)
    (neighbor : SparseVoxelOctreeLink)
    (hn : neighbor.layer_index < t.layers.length)
    (hni : neighbor.node_index < (t.layers.getD neighbor.layer_index []).length)
    (hns : (t.nodeAt neighbor).first_child.isSome = true) :
    (t.expandToNeighboringChildren nbi neighbor).isSome = true := by
  unfold SparseVoxelOctree.expandToNeighboringChildren
  apply expandLoop_isSome t hF nbi
  · intro x hx
    obtain rfl := List.mem_singleton.mp hx
    exact ⟨hn, hni, hns⟩
  · have h1 : stackMeasure [neighbor] = 5 ^ neighbor.layer_index := by
      simp [stackMeasure]
    rw [h1]
    have h2 : 5 ^ neighbor.layer_index ≤ 5 ^ t.layers.length :=
      Nat.pow_le_pow_right (by norm_num) (Nat.le_of_lt hn)
    omega

/-- One face of `successors` keeps the accumulator defined provided the
expansion of that face's neighbor answers. -/
theorem successorsStep_isSome (t : SparseVoxelOctree) (link : SparseVoxelOctreeLink)
    (node : SparseVoxelOctreeNode) (result : List SparseVoxelOctreeLink) (i : Nat)
    (hexp : ∀ neighbor, node.neighbors.getD i none = some neighbor →
      (t.nodeAt neighbor).first_child.isSome = true →
      (t.expandToNeighboringChildren i neighbor).isSome = true) :
    (t.successorsStep link node (some result) i).isSome = true := by
  unfold SparseVoxelOctree.successorsStep
  cases hnb : node.neighbors.getD i none with
  | none =>
    simp only [hnb]
    rfl
  | some neighbor =>
    simp only [hnb]
    cases hsub : link.subnode_index with
    | some subnode =>
      simp only [hsub]
      by_cases hface : (!CompoundNode.isFace subnode i) = true
      · rw [if_pos hface]
        split
        · rfl
        · rfl
      · rw [if_neg hface]
        by_cases h1 : (t.nodeAt neighbor).first_child.isSome = true
        · rw [if_pos h1]
          obtain ⟨v, hv⟩ := Option.isSome_iff_exists.mp (hexp neighbor hnb h1)
          rw [hv]
          rfl
        · rw [if_neg h1]
          by_cases h2 : (t.nodeAt neighbor).is_leaf = true
          · rw [if_pos h2]
            cases t.findNeighboringSubnodeForSubnode i neighbor subnode with
            | some n => rfl
            | none => rfl
          · rw [if_neg h2]
            rfl
    | none =>
      simp only [hsub]
      by_cases h1 : (t.nodeAt neighbor).first_child.isSome = true
      · rw [if_pos h1]
        obtain ⟨v, hv⟩ := Option.isSome_iff_exists.mp (hexp neighbor hnb h1)
        rw [hv]
        rfl
      · rw [if_neg h1]
        by_cases h2 : (t.nodeAt neighbor).is_leaf = true
        · rw [if_pos h2]
          rfl
        · rw [if_neg h2]
          rfl

/-- C10: on every octree the builder produces, `successors` terminates for
every link; the underlying work-list descent is well-founded in the layer
index because every `first_child` link points exactly one layer below its
node and layer-0 nodes never have a `first_child`. -/
theorem c10_successors_terminate (b : SparseVoxelOctreeBuilder) (t : SparseVoxelOctree)
    (hbuild : b.build = some t) :
    (∀ link : SparseVoxelOctreeLink, (t.successors link).isSome = true) ∧
    (∀ l i fc, (getN t.layers l i).first_child = some fc → fc.layer_index + 1 = l) ∧
    (∀ i, (getN t.layers 0 i).first_child = none) := by
  obtain ⟨hS, hF, hZ, hN⟩ := build_LInv hbuild
  refine ⟨?_, fun l i fc hfc => (hF l i fc hfc).1, ?_⟩
  · intro link
    unfold SparseVoxelOctree.successors
    simp only
    refine foldl_inv (fun acc : Option (List SparseVoxelOctreeLink) =>
      acc.isSome = true) _ _ _ ?_ rfl
    intro acc i _ hacc
    cases acc with
    | none => cases hacc
    | some result =>
      apply successorsStep_isSome
      intro neighbor hnb hfcs
      obtain ⟨_, h2, h3, _⟩ := hN link.layer_index link.node_index i neighbor hnb
      exact expand_isSome t hF i neighbor h2 h3 hfcs
  · intro i
    by_cases hi : i < (t.layers.getD 0 []).length
    · exact (hZ i hi).1
    · show ((t.layers.getD 0 []).getD i defNode).first_child = none
      rw [List.getD_eq_default _ _ (Nat.le_of_not_lt hi)]
      rfl

/-- Closed instance of C10 on the build of `builderA`: `successors` of the
root link answers. -/
theorem c10_witness :
    (octreeAval.successors (SparseVoxelOctreeLink.new 1 0 none)).isSome = true :=
  (c10_successors_terminate builderA octreeAval (by decide)).1
    (SparseVoxelOctreeLink.new 1 0 none)

/-! ### Length bookkeeping for the leaf array (C7) -/

/-- Whether an association-list lookup succeeds depends only on the key
sequence. -/
theorem alGet_isSome_keys {α β : Type} :
    ∀ (m1 : List (UVec3 × α)) (m2 : List (UVec3 × β)) (k : UVec3),
      m1.map Prod.fst = m2.map Prod.fst →
      (alGet m1 k).isSome = (alGet m2 k).isSome := by
  intro m1
  induction m1 with
  | nil =>
    intro m2 k hk
    have h2 : m2 = [] := List.map_eq_nil_iff.mp hk.symm
    subst h2
    rfl
  | cons p rest ih =>
    obtain ⟨k0, v⟩ := p
    intro m2 k hk
    cases m2 with
    | nil => simp at hk
    | cons q rest2 =>
      obtain ⟨k0', v'⟩ := q
      simp only [List.map_cons, List.cons.injEq] at hk
      obtain ⟨h1, h2⟩ := hk
      subst h1
      show (alGet ((k0, v) :: rest) k).isSome = (alGet ((k0, v') :: rest2) k).isSome
      unfold alGet
      by_cases hkk : k0 = k
      · rw [if_pos hkk, if_pos hkk]
        rfl
      · rw [if_neg hkk, if_neg hkk]
        exact ih rest2 k h2

/-- Key sequence after a conditional insertion. -/
theorem alInsertIfAbsent_keys {α : Type} (m : List (UVec3 × α)) (k : UVec3) (v : α) :
    (alInsertIfAbsent m k v).map Prod.fst =
      if (alGet m k).isSome then m.map Prod.fst else m.map Prod.fst ++ [k] := by
  unfold alInsertIfAbsent
  split
  · rfl
  · simp

/-- Inserting under the same key into two key-aligned maps keeps their key
sequences aligned. -/
theorem insertPair_keys {α β : Type} {m1 : List (UVec3 × α)} {m2 : List (UVec3 × β)}
    (h : m1.map Prod.fst = m2.map Prod.fst) (k : UVec3) (v1 : α) (v2 : β) :
    (alInsertIfAbsent m1 k v1).map Prod.fst = (alInsertIfAbsent m2 k v2).map Prod.fst := by
  rw [alInsertIfAbsent_keys, alInsertIfAbsent_keys, alGet_isSome_keys m1 m2 k h, h]

/-- `alModify` never changes the key sequence. -/
theorem alModify_keys {α : Type} (m : List (UVec3 × α)) (k : UVec3) (f : α → α) :
    (alModify m k f).map Prod.fst = m.map Prod.fst := by
  unfold alModify
  rw [List.map_map]
  apply List.map_congr_left
  intro p _
  by_cases hp : p.1 = k <;> simp [hp]

/-- The two maps produced by the collect passes always carry the same key
sequence. -/
theorem collect_keys (voxels : List IVec3) (origin : IVec3) :
    ((SparseVoxelOctreeBuilder.collectPassTwo voxels origin
      (SparseVoxelOctreeBuilder.collectPassOne voxels origin)).1).map Prod.fst =
    ((SparseVoxelOctreeBuilder.collectPassTwo voxels origin
      (SparseVoxelOctreeBuilder.collectPassOne voxels origin)).2).map Prod.fst := by
  have hpass1 : ((SparseVoxelOctreeBuilder.collectPassOne voxels origin).1).map Prod.fst =
      ((SparseVoxelOctreeBuilder.collectPassOne voxels origin).2).map Prod.fst := by
    unfold SparseVoxelOctreeBuilder.collectPassOne
    refine foldl_inv (fun ms : List (UVec3 × CompoundNode) ×
        List (UVec3 × SparseVoxelOctreeNode) =>
        ms.1.map Prod.fst = ms.2.map Prod.fst) _ _ _ ?_ rfl
    intro ms voxel _ hms
    refine foldl_inv (fun ms : List (UVec3 × CompoundNode) ×
        List (UVec3 × SparseVoxelOctreeNode) =>
        ms.1.map Prod.fst = ms.2.map Prod.fst) _ _ _ ?_ hms
    intro ms2 x _ hms2
    refine foldl_inv (fun ms : List (UVec3 × CompoundNode) ×
        List (UVec3 × SparseVoxelOctreeNode) =>
        ms.1.map Prod.fst = ms.2.map Prod.fst) _ _ _ ?_ hms2
    intro ms3 y _ hms3
    refine foldl_inv (fun ms : List (UVec3 × CompoundNode) ×
        List (UVec3 × SparseVoxelOctreeNode) =>
        ms.1.map Prod.fst = ms.2.map Prod.fst) _ _ _ ?_ hms3
    intro ms4 z _ hms4
    exact insertPair_keys hms4 _ _ _
  unfold SparseVoxelOctreeBuilder.collectPassTwo
  refine foldl_inv (fun ms : List (UVec3 × CompoundNode) ×
      List (UVec3 × SparseVoxelOctreeNode) =>
      ms.1.map Prod.fst = ms.2.map Prod.fst) _ _ _ ?_ hpass1
  intro ms voxel _ hms
  simp only
  rw [alModify_keys, alModify_keys]
  exact hms

/-- The collect step emits exactly as many compound leaves as layer-0
nodes. -/
theorem collect_len (voxels : List IVec3) (origin : IVec3) :
    (SparseVoxelOctreeBuilder.collectLeafsAndZeroLayerNodes voxels origin).2.length =
    (SparseVoxelOctreeBuilder.collectLeafsAndZeroLayerNodes voxels origin).1.length := by
  unfold SparseVoxelOctreeBuilder.collectLeafsAndZeroLayerNodes
  simp only
  rw [List.length_map, List.length_insertionSort, List.length_map,
    List.length_insertionSort, List.length_map]
  have h1 := congrArg List.length (collect_keys voxels origin)
  rw [List.length_map, List.length_map] at h1
  exact h1

/-- The layer-building loop never touches the layers it started from; in
particular layer 0 survives unchanged. -/
theorem buildLayersLoop_getD0 :
    ∀ (fuel : Nat) (ls : List (List SparseVoxelOctreeNode)) (cur size : Nat)
      (out : List (List SparseVoxelOctreeNode)), ls ≠ [] →
      SparseVoxelOctreeBuilder.buildLayersLoop fuel ls cur size = some out →
      out.getD 0 [] = ls.getD 0 [] := by
  intro fuel
  induction fuel with
  | zero => intro ls cur size out _ h; cases h
  | succ f ih =>
    intro ls cur size out hne h
    rw [SparseVoxelOctreeBuilder.buildLayersLoop] at h
    split at h
    · cases hc : SparseVoxelOctreeBuilder.createNextLayer ls cur size with
      | none =>
        rw [hc] at h
        cases h
      | some p =>
        obtain ⟨next, layer⟩ := p
        simp only [hc] at h
        have hpos : 0 < ls.length := List.length_pos.mpr hne
        have h0 := ih (ls ++ [layer]) next size out (by simp) h
        rw [h0, getD_append_single, if_pos hpos]
    · cases h
      rfl

/-- `fillParents` preserves every layer length. -/
theorem fillParents_LenEq (ls : List (List SparseVoxelOctreeNode)) :
    LenEq ls (SparseVoxelOctreeBuilder.fillParents ls) := by
  unfold SparseVoxelOctreeBuilder.fillParents
  refine foldl_inv (fun s => LenEq ls s) _ _ _ ?_ (LenEq.refl ls)
  intro s i _ hs
  refine foldl_inv (fun s => LenEq ls s) _ _ _ ?_ hs
  intro s2 y _ hs2
  cases hm : ((s2.getD i []).getD y defNode).first_child with
  | none =>
    simp only [hm]
    exact hs2
  | some first_child =>
    simp only [hm]
    refine foldl_inv (fun s => LenEq ls s) _ _ _ ?_ hs2
    intro s3 z _ hs3
    exact hs3.trans ⟨(listModify_length _ _ _).symm,
      fun j => (layersModify_length s3 _ _ _ j).symm⟩

/-- The neighbor-filling loop preserves every layer length. -/
theorem fillNeighborsLoop_LenEq :
    ∀ (fuel : Nat) (ls : List (List SparseVoxelOctreeNode))
      (stack : List SparseVoxelOctreeLink) (out : List (List SparseVoxelOctreeNode)),
      LInv ls → SparseVoxelOctreeBuilder.fillNeighborsLoop fuel ls stack = some out →
      LenEq ls out := by
  intro fuel
  induction fuel with
  | zero => intro ls stack out _ hrun; cases hrun
  | succ f ih =>
    intro ls stack out hInv hrun
    unfold SparseVoxelOctreeBuilder.fillNeighborsLoop at hrun
    cases stack with
    | nil =>
      cases hrun
      exact LenEq.refl ls
    | cons x rest =>
      simp only at hrun
      cases hfc : ((ls.getD x.layer_index []).getD x.node_index defNode).first_child with
      | none =>
        rw [hfc] at hrun
        exact ih ls rest out hInv hrun
      | some fc =>
        rw [hfc] at hrun
        obtain ⟨hfl, hxl, hxi, hf8, hfs⟩ := hInv.2.1 x.layer_index x.node_index fc hfc
        have hflt : fc.layer_index < ls.length := by omega
        have hsib : (LInv (SIBLING_CONNECTIONS.foldl
              (SparseVoxelOctreeBuilder.siblingWrites fc) ls) ∧
            LenEq ls (SIBLING_CONNECTIONS.foldl
              (SparseVoxelOctreeBuilder.siblingWrites fc) ls)) := by
          refine foldl_inv (fun s => LInv s ∧ LenEq ls s) _ _ _ ?_ ⟨hInv, LenEq.refl ls⟩
          intro s conn hconn hs
          exact siblingWrites_LInv ls s fc conn hconn hs.1 hs.2 hflt hf8
        have hcross : (LInv ((List.range 6).foldl (SparseVoxelOctreeBuilder.crossWrites x)
              (SIBLING_CONNECTIONS.foldl (SparseVoxelOctreeBuilder.siblingWrites fc) ls)) ∧
            LenEq ls ((List.range 6).foldl (SparseVoxelOctreeBuilder.crossWrites x)
              (SIBLING_CONNECTIONS.foldl
                (SparseVoxelOctreeBuilder.siblingWrites fc) ls))) := by
          refine foldl_inv (fun s => LInv s ∧ LenEq ls s) _ _ _ ?_ hsib
          intro s k _ hs
          have hcw := crossWrites_LInv s x k hs.1
          exact ⟨hcw.1, hs.2.trans hcw.2⟩
        exact hcross.2.trans (ih _ _ out hcross.1 hrun)

/-- `fillNeighbors` preserves every layer length. -/
theorem fillNeighbors_LenEq {ls out : List (List SparseVoxelOctreeNode)} (hInv : LInv ls)
    (h : SparseVoxelOctreeBuilder.fillNeighbors ls = some out) : LenEq ls out := by
  unfold SparseVoxelOctreeBuilder.fillNeighbors at h
  split at h
  · cases h
    exact LenEq.refl ls
  · split at h
    · cases h
      exact LenEq.refl ls
    · exact fillNeighborsLoop_LenEq _ _ _ _ hInv h

/-- C7 (amended): on every octree the builder produces, the compound-leaf
array and layer 0 have the same length, and every layer-0 node has
`is_leaf = true` — including the octet-completion nodes created around each
voxel that no input voxel touches, because the `leaf` constructor itself
sets the flag.  The flag therefore does not reflect occupancy. -/
theorem c7_amended (b : SparseVoxelOctreeBuilder) (t : SparseVoxelOctree)
    (hbuild : b.build = some t) :
    t.leafs.length = (t.layers.getD 0 []).length ∧
    ∀ i < (t.layers.getD 0 []).length, (getN t.layers 0 i).is_leaf = true := by
  have hLZ := (build_LInv hbuild).2.2.1
  refine ⟨?_, fun i hi => (hLZ i hi).2⟩
  unfold SparseVoxelOctreeBuilder.build at hbuild
  simp only at hbuild
  set voxels := b.meshes.foldl (fun acc m => acc ++ m.voxelsOut) [] with hvox
  set mm := SparseVoxelOctreeBuilder.getMinMax voxels with hmm
  set os := SparseVoxelOctreeBuilder.getOriginAndSize (b.min.cmin mm.1) (b.max.cmax mm.2)
    with hos
  set lz := SparseVoxelOctreeBuilder.collectLeafsAndZeroLayerNodes voxels os.1 with hlzp
  cases hb : SparseVoxelOctreeBuilder.buildLayersLoop 64 [lz.1] 4 os.2 with
  | none =>
    rw [hb] at hbuild
    cases hbuild
  | some layers =>
    simp only [hb] at hbuild
    cases hn : SparseVoxelOctreeBuilder.fillNeighbors
        (SparseVoxelOctreeBuilder.fillParents layers) with
    | none =>
      rw [hn] at hbuild
      cases hbuild
    | some layers2 =>
      simp only [hn] at hbuild
      cases hbuild
      show lz.2.length = (layers2.getD 0 []).length
      have hcol : LInv [lz.1] := by
        rw [hlzp]
        exact collect_LInv voxels os.1
      have hloop := buildLayersLoop_LInv 64 [lz.1] 4 os.2 layers hcol (by simp) (by simp) hb
      have hfpLen := fillParents_LenEq layers
      have hfnLen := fillNeighbors_LenEq (fillParents_LInv hloop.1) hn
      have h0 : layers.getD 0 [] = lz.1 :=
        buildLayersLoop_getD0 64 [lz.1] 4 os.2 layers (by simp) hb
      have hlen0 : (layers2.getD 0 []).length = lz.1.length := by
        rw [← (hfpLen.trans hfnLen).2 0, h0]
      rw [hlen0, hlzp]
      exact collect_len voxels os.1

/-- Closed instance of the amended C7 statement on the build of `builderA`:
eight compound leaves align with eight layer-0 nodes. -/
theorem c7_amended_witness :
    octreeAval.leafs.length = (octreeAval.layers.getD 0 []).length :=
  (c7_amended builderA octreeAval (by decide)).1

/-! ### Termination of the line-of-sight DFS -/

/-- Termination measure of the LOS work list. -/
def losMeasure (opn : List SparseVoxelOctreeLink) : Nat :=
  (opn.map (fun x => 9 ^ (x.layer_index + 1))).sum

/-- A LOS child scan that has already failed stays failed. -/
theorem losChildStep_none (t : SparseVoxelOctree) (fromv tov : UVec3)
    (node : SparseVoxelOctreeNode) (fc : SparseVoxelOctreeLink) (i : Nat) :
    t.losChildStep fromv tov node fc none i = none := rfl

/-- The three possible outcomes of one LOS child scan. -/
theorem losChildStep_cases (t : SparseVoxelOctree) (fromv tov : UVec3)
    (node : SparseVoxelOctreeNode) (fc : SparseVoxelOctreeLink)
    (stack : List SparseVoxelOctreeLink) (i : Nat) :
    t.losChildStep fromv tov node fc (some stack) i = none ∨
    t.losChildStep fromv tov node fc (some stack) i = some stack ∨
    t.losChildStep fromv tov node fc (some stack) i =
      some (SparseVoxelOctreeLink.new fc.layer_index (fc.node_index + i) none :: stack) := by
  unfold SparseVoxelOctree.losChildStep
  simp only
  split
  · exact Or.inr (Or.inl rfl)
  · split
    · split
      · exact Or.inr (Or.inl rfl)
      · split
        · exact Or.inl rfl
        · split
          · exact Or.inl rfl
          · exact Or.inr (Or.inl rfl)
    · exact Or.inr (Or.inr rfl)

/-- The LOS child fold adds at most one child-layer term per scanned
index. -/
theorem losFold_measure (t : SparseVoxelOctree) (fromv tov : UVec3)
    (node : SparseVoxelOctreeNode) (fc : SparseVoxelOctreeLink) :
    ∀ (l : List Nat) (stack : List SparseVoxelOctreeLink)
      (s : List SparseVoxelOctreeLink),
      l.foldl (t.losChildStep fromv tov node fc) (some stack) = some s →
      losMeasure s ≤ losMeasure stack + l.length * 9 ^ (fc.layer_index + 1) := by
  intro l
  induction l with
  | nil =>
    intro stack s h
    cases h
    simp
  | cons y rest ih =>
    intro stack s h
    rw [List.foldl_cons] at h
    rcases losChildStep_cases t fromv tov node fc stack y with hc | hc | hc
    · rw [hc] at h
      rw [show rest.foldl (t.losChildStep fromv tov node fc) none = none from
        foldlNoneOf _ _ (fun i _ => losChildStep_none t fromv tov node fc i)] at h
      cases h
    · rw [hc] at h
      have h2 := ih stack s h
      refine le_trans h2 ?_
      rw [List.length_cons]
      exact Nat.add_le_add_left (Nat.mul_le_mul_right _ (Nat.le_succ _)) _
    · rw [hc] at h
      have h2 := ih _ s h
      have hcons : losMeasure (SparseVoxelOctreeLink.new fc.layer_index
          (fc.node_index + y) none :: stack) =
          9 ^ (fc.layer_index + 1) + losMeasure stack := by
        simp [losMeasure, SparseVoxelOctreeLink.new]
      rw [hcons] at h2
      refine le_trans h2 (le_of_eq ?_)
      rw [List.length_cons]
      ring

/-- With enough fuel (more than the current measure) the LOS loop always
answers. -/
theorem losLoop_isSome (t : SparseVoxelOctree) (hF : FCInv t.layers) (fromv tov : UVec3) :
    ∀ (fuel : Nat) (opn : List SparseVoxelOctreeLink),
      losMeasure opn < fuel → (t.losLoop fromv tov fuel opn).isSome = true := by
  intro fuel
  induction fuel with
  | zero => intro opn hm; exact absurd hm (Nat.not_lt_zero _)
  | succ f ih =>
    intro opn hm
    cases opn with
    | nil => rfl
    | cons x rest =>
      unfold SparseVoxelOctree.losLoop
      simp only
      have hmc : losMeasure (x :: rest) = 9 ^ (x.layer_index + 1) + losMeasure rest := by
        simp [losMeasure]
      have hA1 : 0 < 9 ^ (x.layer_index + 1) := Nat.pos_pow_of_pos _ (by norm_num)
      cases hfc : (t.nodeAt x).first_child with
      | none =>
        simp only [hfc]
        apply ih
        omega
      | some fc =>
        simp only [hfc]
        have hgfc : (getN t.layers x.layer_index x.node_index).first_child = some fc := hfc
        obtain ⟨hl1, _, _, _, _⟩ := hF x.layer_index x.node_index fc hgfc
        cases hfold : (List.range 8).foldl
            (t.losChildStep fromv tov (t.nodeAt x) fc) (some rest) with
        | none =>
          simp only [hfold]
          rfl
        | some stack =>
          simp only [hfold]
          apply ih
          have hb := losFold_measure t fromv tov (t.nodeAt x) fc _ _ _ hfold
          rw [List.length_range] at hb
          have h9 : (9 : Nat) ^ (x.layer_index + 1) = 9 ^ (fc.layer_index + 1) * 9 := by
            have : fc.layer_index + 1 + 1 = x.layer_index + 1 := by omega
            rw [← this, Nat.pow_succ]
          have hA2 : 0 < 9 ^ (fc.layer_index + 1) := Nat.pos_pow_of_pos _ (by norm_num)
          omega

/-- The clamped voxel coordinate at which `is_in_line_of_sight` evaluates a
world point. -/
def losVoxelOf (t : SparseVoxelOctree) (w : Vec3) : UVec3 :=
  (((w / t.voxel_size).asIVec3 - t.origin).cmax IVec3.zero).asUVec3

/-- Every octree the builder produces has at least one layer. -/
theorem build_layers_ne {b : SparseVoxelOctreeBuilder} {t : SparseVoxelOctree}
    (h : b.build = some t) : t.layers ≠ [] := by
  unfold SparseVoxelOctreeBuilder.build at h
  simp only at h
  set voxels := b.meshes.foldl (fun acc m => acc ++ m.voxelsOut) [] with hvox
  set mm := SparseVoxelOctreeBuilder.getMinMax voxels with hmm
  set os := SparseVoxelOctreeBuilder.getOriginAndSize (b.min.cmin mm.1) (b.max.cmax mm.2)
    with hos
  set lz := SparseVoxelOctreeBuilder.collectLeafsAndZeroLayerNodes voxels os.1 with hlzp
  cases hb : SparseVoxelOctreeBuilder.buildLayersLoop 64 [lz.1] 4 os.2 with
  | none =>
    rw [hb] at h
    cases h
  | some layers =>
    simp only [hb] at h
    cases hn : SparseVoxelOctreeBuilder.fillNeighbors
        (SparseVoxelOctreeBuilder.fillParents layers) with
    | none =>
      rw [hn] at h
      cases h
    | some layers2 =>
      simp only [hn] at h
      cases h
      show layers2 ≠ []
      have hcol : LInv [lz.1] := by
        rw [hlzp]
        exact collect_LInv voxels os.1
      have hloop := buildLayersLoop_LInv 64 [lz.1] 4 os.2 layers hcol (by simp) (by simp) hb
      have hfpLen := fillParents_LenEq layers
      have hfnLen := fillNeighbors_LenEq (fillParents_LInv hloop.1) hn
      have hlen : layers.length = layers2.length := (hfpLen.trans hfnLen).1
      intro hemp
      rw [hemp] at hlen
      have h0 : layers.length = 0 := by simpa using hlen
      exact hloop.2 (List.length_eq_zero.mp h0)

/-- On built octrees, `is_in_line_of_sight` always answers. -/
theorem los_isSome (t : SparseVoxelOctree) (hF : FCInv t.layers) (hne : t.layers ≠ [])
    (a c : Vec3) : (t.isInLineOfSight a c).isSome = true := by
  unfold SparseVoxelOctree.isInLineOfSight
  apply losLoop_isSome t hF
  have hpos : 0 < t.layers.length := List.length_pos.mpr hne
  have hm : losMeasure [SparseVoxelOctreeLink.new (t.layers.length - 1) 0 none] =
      9 ^ (t.layers.length - 1 + 1) := by
    simp [losMeasure, SparseVoxelOctreeLink.new]
  rw [hm]
  have : t.layers.length - 1 + 1 = t.layers.length := by omega
  rw [this]
  omega

/-- Safety of a voxel point for the LOS scan: every leaf child whose
*inflated* closed box `[child.pos, child.pos + parent.size]` contains the
point is either empty, or is not full and none of its occupied unit cells'
closed boxes `[cell, cell + 1]` contain the point.  (The inflation by the
parent size and the closed boundaries are the geometry the code actually
tests, cf. the C3 counterexample.) -/
def losPointSafe (t : SparseVoxelOctree) (v : UVec3) : Bool :=
  (List.range t.layers.length).all fun l =>
    (List.range (t.layers.getD l []).length).all fun i =>
      match (getN t.layers l i).first_child with
      | none => true
      | some fc =>
        (List.range 8).all fun j =>
          decide (cohenSutherland v v
            (t.getNode fc.layer_index (fc.node_index + j)).position
            ((t.getNode fc.layer_index (fc.node_index + j)).position +
              (t.getNode l i).size) = LineClippingResult.Outside) ||
          !(t.getNode fc.layer_index (fc.node_index + j)).is_leaf ||
          CompoundNode.isEmpty (t.leafs.getD (fc.node_index + j) 0) ||
          (!CompoundNode.isFull (t.leafs.getD (fc.node_index + j) 0) &&
           !((CompoundNode.getOccupiedIndexes (t.leafs.getD (fc.node_index + j) 0)).any
             (fun index =>
               match mortonDecodeU8 index with
               | some local_coords =>
                 cohenSutherland v v
                   ((t.getNode fc.layer_index (fc.node_index + j)).position + local_coords)
                   ((t.getNode fc.layer_index (fc.node_index + j)).position + local_coords +
                     (1 : Nat)) ≠ LineClippingResult.Outside
               | none => false)))

/-- On a point-safe voxel, the LOS DFS can only answer `true`. -/
theorem losSafeLoop (t : SparseVoxelOctree) (v : UVec3) (hF : FCInv t.layers)
    (hsafe : losPointSafe t v = true) :
    ∀ (fuel : Nat) (opn : List SparseVoxelOctreeLink) (res : Bool),
      t.losLoop v v fuel opn = some res → res = true := by
  intro fuel
  induction fuel with
  | zero => intro opn res h; cases h
  | succ f ih =>
    intro opn res h
    cases opn with
    | nil =>
      cases h
      rfl
    | cons x rest =>
      unfold SparseVoxelOctree.losLoop at h
      simp only at h
      cases hfc : (t.nodeAt x).first_child with
      | none =>
        rw [hfc] at h
        exact ih rest res h
      | some fc =>
        simp only [hfc] at h
        obtain ⟨hl1, hl2, hl3, hl4, hl5⟩ := hF x.layer_index x.node_index fc hfc
        have hgfc : (getN t.layers x.layer_index x.node_index).first_child = some fc := hfc
        have ha := (List.all_eq_true.mp hsafe) x.layer_index (List.mem_range.mpr hl2)
        have hb := (List.all_eq_true.mp ha) x.node_index (List.mem_range.mpr hl3)
        simp only [hgfc] at hb
        have hstep : ∀ (o : Option (List SparseVoxelOctreeLink)) (j : Nat),
            j ∈ List.range 8 → o.isSome = true →
            (t.losChildStep v v (t.nodeAt x) fc o j).isSome = true := by
          intro o j hj ho
          obtain ⟨st, hst⟩ := Option.isSome_iff_exists.mp ho
          subst hst
          have hc := (List.all_eq_true.mp hb) j hj
          simp only [Bool.or_eq_true, Bool.and_eq_true, Bool.not_eq_true',
            decide_eq_true_eq] at hc
          unfold SparseVoxelOctree.losChildStep
          simp only
          by_cases hclip : cohenSutherland v v
              (t.getNode fc.layer_index (fc.node_index + j)).position
              ((t.getNode fc.layer_index (fc.node_index + j)).position +
                (t.nodeAt x).size) = LineClippingResult.Outside
          · rw [if_pos hclip]
            rfl
          · rw [if_neg hclip]
            by_cases hleaf : (t.getNode fc.layer_index (fc.node_index + j)).is_leaf = true
            · rw [if_pos hleaf]
              by_cases hemp : CompoundNode.isEmpty
                  (t.leafs.getD (fc.node_index + j) 0) = true
              · rw [if_pos hemp]
                rfl
              · rw [if_neg hemp]
                rcases hc with ((hc | hc) | hc) | ⟨hc4, hc5⟩
                · exact absurd hc hclip
                · rw [hleaf] at hc
                  cases hc
                · exact absurd hc hemp
                · rw [if_neg (by rw [hc4]; exact Bool.false_ne_true),
                    if_neg (by rw [hc5]; exact Bool.false_ne_true)]
                  rfl
            · rw [if_neg hleaf]
              rfl
        have hfold : ((List.range 8).foldl (t.losChildStep v v (t.nodeAt x) fc)
            (some rest)).isSome = true :=
          foldl_inv (fun o : Option (List SparseVoxelOctreeLink) => o.isSome = true)
            _ _ _ hstep rfl
        obtain ⟨stack, hstack⟩ := Option.isSome_iff_exists.mp hfold
        simp only [hstack] at h
        exact ih stack res h

/-- C3 (amended): on every octree the builder produces, `is_in_line_of_sight
(p, p)` returns `true` for every world point whose clamped voxel coordinate
is point-safe: it avoids the closed inflated boxes of all non-empty leaf
children, or at least the closed unit boxes of their occupied cells.  (The
original free-space condition is insufficient: a free point on the closed
boundary of an occupied cell or inside a full leaf's inflated box makes the
scan report an intersection, cf. the counterexample.) -/
theorem c3_amended (b : SparseVoxelOctreeBuilder) (t : SparseVoxelOctree)
    (hbuild : b.build = some t) (p : Vec3)
    (hsafe : losPointSafe t (losVoxelOf t p) = true) :
    t.isInLineOfSight p p = some true := by
  have hF := (build_LInv hbuild).2.1
  have hne := build_layers_ne hbuild
  have hq := los_isSome t hF hne p p
  obtain ⟨res, hres⟩ := Option.isSome_iff_exists.mp hq
  have hres2 : t.losLoop (losVoxelOf t p) (losVoxelOf t p)
      (9 ^ t.layers.length + 1)
      [SparseVoxelOctreeLink.new (t.layers.length - 1) 0 none] = some res := hres
  have htrue : res = true := losSafeLoop t (losVoxelOf t p) hF hsafe _ _ res hres2
  rw [hres, htrue]

/-- The concrete octree of `builderBlocker` (the build succeeds). -/
def octreeBlockerVal : SparseVoxelOctree := octreeBlocker.getD defOctree

/-- Closed instance of the amended C3 statement on the build of
`builderBlocker`: the point `(2,2,2)` is point-safe (its voxel avoids every
occupied closed unit box and no inflated full-leaf box) and sees itself. -/
theorem c3_amended_witness :
    octreeBlockerVal.isInLineOfSight (Vec3.ofInts 2 2 2) (Vec3.ofInts 2 2 2) = some true :=
  c3_amended builderBlocker octreeBlockerVal (by decide) (Vec3.ofInts 2 2 2) (by decide)

/-! ### Monotonicity of the LOS scan in leaf occupancy (C4) -/

/-- A word that is empty absorbs nothing: the sub-word is empty too. -/
theorem lor_isEmpty_mono {a b : Nat} (hk : a ||| b = b)
    (h : CompoundNode.isEmpty b = true) : CompoundNode.isEmpty a = true := by
  unfold CompoundNode.isEmpty at h ⊢
  have hb : b = 0 := by simpa using h
  subst hb
  have hz : a = 0 := by
    apply Nat.eq_of_testBit_eq
    intro i
    have h2 := congrArg (fun n => n.testBit i) hk
    simp only [Nat.testBit_lor] at h2
    simp only [Nat.zero_testBit] at h2 ⊢
    exact (Bool.or_eq_false_iff.mp h2).1
  simp [hz]

/-- A full sub-word forces the 64-bit superword to be full. -/
theorem lor_isFull_mono {a b : Nat} (hk : a ||| b = b) (hlt : b < 2 ^ 64)
    (h : CompoundNode.isFull a = true) : CompoundNode.isFull b = true := by
  unfold CompoundNode.isFull at h ⊢
  have ha : a = 0xffffffffffffffff := by simpa using h
  have hM : (0xffffffffffffffff : Nat) = 2 ^ 64 - 1 := by norm_num
  have hb : b = 0xffffffffffffffff := by
    apply Nat.eq_of_testBit_eq
    intro i
    by_cases hi : i < 64
    · have h2 := congrArg (fun n => n.testBit i) hk
      simp only [Nat.testBit_lor] at h2
      have hai : a.testBit i = true := by
        rw [ha, hM, Nat.testBit_two_pow_sub_one]
        simpa using hi
      rw [hai] at h2
      simp only [Bool.true_or] at h2
      rw [hM, Nat.testBit_two_pow_sub_one, ← h2]
      simp [hi]
    · have hbi : b.testBit i = false := by
        apply Nat.testBit_eq_false_of_lt
        calc b < 2 ^ 64 := hlt
          _ ≤ 2 ^ i := Nat.pow_le_pow_right (by norm_num) (by omega)
      rw [hbi, hM, Nat.testBit_two_pow_sub_one]
      simp [hi]
  simp [hb]

/-- Occupied cells of the sub-word are occupied in the superword. -/
theorem lor_occupied_mono {a b : Nat} (hk : a ||| b = b) :
    ∀ i ∈ CompoundNode.getOccupiedIndexes a, i ∈ CompoundNode.getOccupiedIndexes b := by
  intro i hi
  unfold CompoundNode.getOccupiedIndexes at hi ⊢
  rw [List.mem_filter] at hi ⊢
  refine ⟨hi.1, ?_⟩
  have h1 := hi.2
  have hsh : (1 : Nat) <<< i = 2 ^ i := by rw [Nat.shiftLeft_eq, Nat.one_mul]
  rw [hsh, Nat.and_two_pow] at h1 ⊢
  have h2 := congrArg (fun n => n.testBit i) hk
  simp only [Nat.testBit_lor] at h2
  cases hat : a.testBit i with
  | false =>
    rw [hat] at h1
    simp at h1
  | true =>
    rw [hat] at h2
    simp only [Bool.true_or] at h2
    rw [← h2]
    simp

/-- `List.any` is monotone along a sub-list relation. -/
theorem any_mono {l1 l2 : List Nat} (hsub : ∀ i ∈ l1, i ∈ l2) (f : Nat → Bool)
    (h : l1.any f = true) : l2.any f = true := by
  obtain ⟨i, hi, hfi⟩ := List.any_eq_true.mp h
  exact List.any_eq_true.mpr ⟨i, hsub i hi, hfi⟩

/-- One LOS child scan under grown occupancy: every defined outcome of the
grown octree is an outcome of the leaner one. -/
theorem losChildStep_mono (t1 t2 : SparseVoxelOctree) (hlay : t1.layers = t2.layers)
    (hsub : ∀ k, t2.leafs.getD k 0 < 2 ^ 64 ∧
      t1.leafs.getD k 0 ||| t2.leafs.getD k 0 = t2.leafs.getD k 0)
    (fromv tov : UVec3) (node : SparseVoxelOctreeNode) (fc : SparseVoxelOctreeLink)
    (st : List SparseVoxelOctreeLink) (j : Nat) (s2 : List SparseVoxelOctreeLink)
    (h : t2.losChildStep fromv tov node fc (some st) j = some s2) :
    t1.losChildStep fromv tov node fc (some st) j = some s2 := by
  have hchild : t1.getNode fc.layer_index (fc.node_index + j) =
      t2.getNode fc.layer_index (fc.node_index + j) := by
    unfold SparseVoxelOctree.getNode
    rw [hlay]
  obtain ⟨hlt, hk⟩ := hsub (fc.node_index + j)
  unfold SparseVoxelOctree.losChildStep at h ⊢
  simp only at h ⊢
  rw [hchild]
  by_cases hclip : cohenSutherland fromv tov
      (t2.getNode fc.layer_index (fc.node_index + j)).position
      ((t2.getNode fc.layer_index (fc.node_index + j)).position + node.size) =
      LineClippingResult.Outside
  · rw [if_pos hclip] at h ⊢
    exact h
  · rw [if_neg hclip] at h ⊢
    by_cases hleaf : (t2.getNode fc.layer_index (fc.node_index + j)).is_leaf = true
    · rw [if_pos hleaf] at h ⊢
      by_cases hemp2 : CompoundNode.isEmpty (t2.leafs.getD (fc.node_index + j) 0) = true
      · rw [if_pos hemp2] at h
        rw [if_pos (lor_isEmpty_mono hk hemp2)]
        exact h
      · rw [if_neg hemp2] at h
        by_cases hfull2 : CompoundNode.isFull (t2.leafs.getD (fc.node_index + j) 0) = true
        · rw [if_pos hfull2] at h
          cases h
        · rw [if_neg hfull2] at h
          by_cases hany2 : ((CompoundNode.getOccupiedIndexes
              (t2.leafs.getD (fc.node_index + j) 0)).any (fun index =>
                match mortonDecodeU8 index with
                | some local_coords =>
                  cohenSutherland fromv tov
                    ((t2.getNode fc.layer_index (fc.node_index + j)).position +
                      local_coords)
                    ((t2.getNode fc.layer_index (fc.node_index + j)).position +
                      local_coords + (1 : Nat)) ≠ LineClippingResult.Outside
                | none => false)) = true
          · rw [if_pos hany2] at h
            cases h
          · rw [if_neg hany2] at h
            by_cases hemp1 : CompoundNode.isEmpty
                (t1.leafs.getD (fc.node_index + j) 0) = true
            · rw [if_pos hemp1]
              exact h
            · rw [if_neg hemp1]
              rw [if_neg (fun hf => hfull2 (lor_isFull_mono hk hlt hf))]
              rw [if_neg (fun ha => hany2 (any_mono (lor_occupied_mono hk) _ ha))]
              exact h
    · rw [if_neg hleaf] at h ⊢
      exact h

/-- The LOS child fold under grown occupancy. -/
theorem losFold_mono (t1 t2 : SparseVoxelOctree) (hlay : t1.layers = t2.layers)
    (hsub : ∀ k, t2.leafs.getD k 0 < 2 ^ 64 ∧
      t1.leafs.getD k 0 ||| t2.leafs.getD k 0 = t2.leafs.getD k 0)
    (fromv tov : UVec3) (node : SparseVoxelOctreeNode) (fc : SparseVoxelOctreeLink) :
    ∀ (l : List Nat) (st s : List SparseVoxelOctreeLink),
      l.foldl (t2.losChildStep fromv tov node fc) (some st) = some s →
      l.foldl (t1.losChildStep fromv tov node fc) (some st) = some s := by
  intro l
  induction l with
  | nil => intro st s h; exact h
  | cons y rest ih =>
    intro st s h
    rw [List.foldl_cons] at h ⊢
    cases h2 : t2.losChildStep fromv tov node fc (some st) y with
    | none =>
      rw [h2] at h
      rw [show rest.foldl (t2.losChildStep fromv tov node fc) none = none from
        foldlNoneOf _ _ (fun i _ => losChildStep_none t2 fromv tov node fc i)] at h
      cases h
    | some st2 =>
      rw [h2] at h
      rw [losChildStep_mono t1 t2 hlay hsub fromv tov node fc st y st2 h2]
      exact ih st2 s h

/-- The LOS DFS under grown occupancy: a `true` verdict on the grown octree
is a `true` verdict on the leaner one. -/
theorem losLoop_mono (t1 t2 : SparseVoxelOctree) (hlay : t1.layers = t2.layers)
    (hsub : ∀ k, t2.leafs.getD k 0 < 2 ^ 64 ∧
      t1.leafs.getD k 0 ||| t2.leafs.getD k 0 = t2.leafs.getD k 0)
    (fromv tov : UVec3) :
    ∀ (fuel : Nat) (opn : List SparseVoxelOctreeLink),
      t2.losLoop fromv tov fuel opn = some true →
      t1.losLoop fromv tov fuel opn = some true := by
  intro fuel
  induction fuel with
  | zero => intro opn h; cases h
  | succ f ih =>
    intro opn h
    cases opn with
    | nil => rfl
    | cons x rest =>
      unfold SparseVoxelOctree.losLoop at h ⊢
      simp only at h ⊢
      have hnode : t1.nodeAt x = t2.nodeAt x := by
        unfold SparseVoxelOctree.nodeAt SparseVoxelOctree.getNode
        rw [hlay]
      rw [hnode]
      cases hfc : (t2.nodeAt x).first_child with
      | none =>
        simp only [hfc] at h ⊢
        exact ih rest h
      | some fc =>
        simp only [hfc] at h ⊢
        cases hf2 : (List.range 8).foldl
            (t2.losChildStep fromv tov (t2.nodeAt x) fc) (some rest) with
        | none =>
          simp only [hf2] at h
          cases h
        | some stack =>
          simp only [hf2] at h
          have hf1 := losFold_mono t1 t2 hlay hsub fromv tov (t2.nodeAt x) fc
            (List.range 8) rest stack hf2
          simp only [hf1]
          exact ih stack h

/-- `is_in_line_of_sight` under grown occupancy at unchanged geometry. -/
theorem los_mono (t1 t2 : SparseVoxelOctree) (hlay : t1.layers = t2.layers)
    (horg : t1.origin = t2.origin) (hvs : t1.voxel_size = t2.voxel_size)
    (hsub : ∀ k, t2.leafs.getD k 0 < 2 ^ 64 ∧
      t1.leafs.getD k 0 ||| t2.leafs.getD k 0 = t2.leafs.getD k 0)
    (a c : Vec3) (h : t2.isInLineOfSight a c = some true) :
    t1.isInLineOfSight a c = some true := by
  unfold SparseVoxelOctree.isInLineOfSight at h ⊢
  simp only at h ⊢
  rw [hvs, horg, hlay]
  exact losLoop_mono t1 t2 hlay hsub _ _ _ _ h

/-- C4 (amended): for two builds with the same layer geometry, origin and
voxel size whose second leaf occupancy is a pointwise bitwise superset of
the first (as happens when voxels are added without changing the computed
bounds), a `false` LOS verdict survives the growth.  The original claim
fails when the added voxel changes the computed origin or size, since the
endpoint clamping then changes (cf. the counterexample). -/
theorem c4_amended (b1 b2 : SparseVoxelOctreeBuilder) (t1 t2 : SparseVoxelOctree)
    (_h1 : b1.build = some t1) (h2 : b2.build = some t2)
    (hlay : t1.layers = t2.layers) (horg : t1.origin = t2.origin)
    (hvs : t1.voxel_size = t2.voxel_size)
    (hlen : t1.leafs.length = t2.leafs.length)
    (hsub : ∀ k < t2.leafs.length, t2.leafs.getD k 0 < 2 ^ 64 ∧
      t1.leafs.getD k 0 ||| t2.leafs.getD k 0 = t2.leafs.getD k 0)
    (a c : Vec3) (hfalse : t1.isInLineOfSight a c = some false) :
    t2.isInLineOfSight a c = some false := by
  have hsub' : ∀ k, t2.leafs.getD k 0 < 2 ^ 64 ∧
      t1.leafs.getD k 0 ||| t2.leafs.getD k 0 = t2.leafs.getD k 0 := by
    intro k
    by_cases hk : k < t2.leafs.length
    · exact hsub k hk
    · rw [List.getD_eq_default _ _ (Nat.le_of_not_lt hk),
        List.getD_eq_default _ _ (by rw [hlen]; exact Nat.le_of_not_lt hk)]
      exact ⟨Nat.pos_pow_of_pos _ (by norm_num), by simp⟩
  have hF2 := (build_LInv h2).2.1
  have hne2 := build_layers_ne h2
  obtain ⟨res, hres⟩ := Option.isSome_iff_exists.mp (los_isSome t2 hF2 hne2 a c)
  cases res with
  | false => exact hres
  | true =>
    have hmono := los_mono t1 t2 hlay horg hvs hsub' a c hres
    rw [hmono] at hfalse
    cases hfalse

/-- Builder over the voxels `(0,0,0)`, `(1,0,0)` and `(7,7,7)`: the
`builderA` input plus one voxel that does not change the computed bounds. -/
def builderA4 : SparseVoxelOctreeBuilder :=
  ((SparseVoxelOctreeBuilder.new (F32.ofInt 1)).addMesh
    (VoxelizedMesh.new [⟨0, 0, 0⟩, ⟨1, 0, 0⟩, ⟨7, 7, 7⟩] (F32.ofInt 1) IVec3.zero))

/-- The concrete octree of `builderA4` (the build succeeds). -/
def octreeA4val : SparseVoxelOctree := builderA4.build.getD defOctree

/-- The octree of `builderA`, written out (checked against the build by
`c4_amended_witness`). -/
def octreeALayersLit : List (List SparseVoxelOctreeNode) :=
  [[{ position := { x := 0, y := 0, z := 0 },
                size := 4,
                parent := some { layer_index := 1, node_index := 0, subnode_index := none },
                first_child := none,
                is_leaf := true,
                neighbors := [some { layer_index := 0, node_index := 1, subnode_index := none },
                              some { layer_index := 0, node_index := 4, subnode_index := none },
                              none,
                              none,
                              some { layer_index := 0, node_index := 2, subnode_index := none },
                              none] },
              { position := { x := 4, y := 0, z := 0 },
                size := 4,
                parent := some { layer_index := 1, node_index := 0, subnode_index := none },
                first_child := none,
                is_leaf := true,
                neighbors := [none,
                              some { layer_index := 0, node_index := 5, subnode_index := none },
                              some { layer_index := 0, node_index := 0, subnode_index := none },
                              none,
                              some { layer_index := 0, node_index := 3, subnode_index := none },
                              none] },
              { position := { x := 0, y := 4, z := 0 },
                size := 4,
                parent := some { layer_index := 1, node_index := 0, subnode_index := none },
                first_child := none,
                is_leaf := true,
                neighbors := [some { layer_index := 0, node_index := 3, subnode_index := none },
                              some { layer_index := 0, node_index := 6, subnode_index := none },
                              none,
                              none,
                              none,
                              some { layer_index := 0, node_index := 0, subnode_index := none }] },
              { position := { x := 4, y := 4, z := 0 },
                size := 4,
                parent := some { layer_index := 1, node_index := 0, subnode_index := none },
                first_child := none,
                is_leaf := true,
                neighbors := [none,
                              some { layer_index := 0, node_index := 7, subnode_index := none },
                              some { layer_index := 0, node_index := 2, subnode_index := none },
                              none,
                              none,
                              some { layer_index := 0, node_index := 1, subnode_index := none }] },
              { position := { x := 0, y := 0, z := 4 },
                size := 4,
                parent := some { layer_index := 1, node_index := 0, subnode_index := none },
                first_child := none,
                is_leaf := true,
                neighbors := [some { layer_index := 0, node_index := 5, subnode_index := none },
                              none,
                              none,
                              some { layer_index := 0, node_index := 0, subnode_index := none },
                              some { layer_index := 0, node_index := 6, subnode_index := none },
                              none] },
              { position := { x := 4, y := 0, z := 4 },
                size := 4,
                parent := some { layer_index := 1, node_index := 0, subnode_index := none },
                first_child := none,
                is_leaf := true,
                neighbors := [none,
                              none,
                              some { layer_index := 0, node_index := 4, subnode_index := none },
                              some { layer_index := 0, node_index := 1, subnode_index := none },
                              some { layer_index := 0, node_index := 7, subnode_index := none },
                              none] },
              { position := { x := 0, y := 4, z := 4 },
                size := 4,
                parent := some { layer_index := 1, node_index := 0, subnode_index := none },
                first_child := none,
                is_leaf := true,
                neighbors := [some { layer_index := 0, node_index := 7, subnode_index := none },
                              none,
                              none,
                              some { layer_index := 0, node_index := 2, subnode_index := none },
                              none,
                              some { layer_index := 0, node_index := 4, subnode_index := none }] },
              { position := { x := 4, y := 4, z := 4 },
                size := 4,
                parent := some { layer_index := 1, node_index := 0, subnode_index := none },
                first_child := none,
                is_leaf := true,
                neighbors := [none,
                              none,
                              some { layer_index := 0, node_index := 6, subnode_index := none },
                              some { layer_index := 0, node_index := 3, subnode_index := none },
                              none,
                              some { layer_index := 0, node_index := 5, subnode_index := none }] }],
             [{ position := { x := 0, y := 0, z := 0 },
                size := 8,
                parent := none,
                first_child := some { layer_index := 0, node_index := 0, subnode_index := none },
                is_leaf := false,
                neighbors := [none, none, none, none, none, none] }]]

/-- Literal form of the `builderA` octree. -/
def octreeALit : SparseVoxelOctree :=
  { voxel_size := { num := 1, den := 1 },
    origin := { x := 0, y := 0, z := 0 },
    layers := octreeALayersLit,
    leafs := [1, 0, 0, 0, 0, 0, 0, 9223372036854775808] }

/-- Literal form of the `builderA4` octree: same geometry, one more
occupancy bit. -/
def octreeA4Lit : SparseVoxelOctree :=
  { voxel_size := { num := 1, den := 1 },
    origin := { x := 0, y := 0, z := 0 },
    layers := octreeALayersLit,
    leafs := [3, 0, 0, 0, 0, 0, 0, 9223372036854775808] }

set_option maxHeartbeats 2000000 in
/-- Closed instance of the amended C4 statement: `builderA4` adds the voxel
`(1,0,0)` to the `builderA` input without changing the computed bounds, the
segment `(0,0,0)`–`(7,7,7)` is blocked on the leaner build, and it stays
blocked on the grown one. -/
theorem c4_amended_witness :
    octreeA4Lit.isInLineOfSight (Vec3.ofInts 0 0 0) (Vec3.ofInts 7 7 7) = some false :=
  c4_amended builderA builderA4 octreeALit octreeA4Lit (by decide) (by decide) rfl rfl
    rfl rfl (by decide) (Vec3.ofInts 0 0 0) (Vec3.ofInts 7 7 7) (by decide)

end Svo
